import Mathlib

/-!
Verification of the jswt compiler core: AST lowering, code generation and
binary serialization, shallowly embedded from the Rust sources
(`src/jswt-ast-lowering/src/lib.rs`, `src/jswt-codegen/src/lib.rs`,
`src/src/wasm/section.rs`, with the shared module-construction helpers also
present in `src/jswt-compiler/src/codegen/mod.rs`).

Rust `Vec` stacks are embedded as Lean lists with the head as the top of the
stack.  Code paths that panic in Rust (`todo!`, `unreachable!`, `unwrap` on
`None`) are embedded as `Option` results, `none` marking the panic.
-/

set_option maxHeartbeats 1000000

namespace Jswt

/-- Source span: file handle with start/end offsets, or the synthetic marker
for nodes invented by lowering (spec section 3.1). -/
inductive Span where
  | real (file start stop : Nat)
  | synthetic
deriving DecidableEq, Repr

/-- Identifier: an owned string with a span (`jswt-ast/src/ident.rs`). -/
structure Ident where
  span : Span
  value : String
deriving DecidableEq, Repr

/-- Primitive types of `jswt_common::Type` as matched by
`CodeGenerator::visit_binary_expression` (`src/jswt-codegen/src/lib.rs`). -/
inductive PrimitiveType where
  | I32
  | U32
  | F32
  | Boolean
deriving DecidableEq, Repr

/-- The semantic type tag carried by expression nodes.  The variant set is
exactly the one matched exhaustively in
`CodeGenerator::visit_binary_expression` (`src/jswt-codegen/src/lib.rs`,
lines 458-518): `Primitive`, `Array`, `String`, `Object`, `Function`,
`Void`, `Unknown`. -/
inductive Ty where
  | Primitive (p : PrimitiveType)
  | Array (t : Ty)
  | String
  | Object
  | Function (params : List Ty) (ret : Ty)
  | Void
  | Unknown

namespace Wast

/-- Modelled from the spec: `jswt_wast::ValueType` (the `jswt-wast` crate is
not under `src/`).  Spec section 3.4: `ValueType is I32 | F32`. -/
inductive ValueType where
  | I32
  | F32
deriving DecidableEq, Repr

/-- Modelled from the spec: the `jswt_wast::Instruction` tree (the
`jswt-wast` crate is not under `src/`); the constructor set and shapes follow
spec section 3.4 and the construction sites in
`src/jswt-codegen/src/lib.rs`.  `F32Const` carries its float literal as an
opaque token, since no arithmetic is ever performed on it. -/
inductive Instruction where
  | I32Const (v : Int)
  | F32Const (v : Nat)
  | I32Add (l r : Instruction)
  | I32Sub (l r : Instruction)
  | I32Mul (l r : Instruction)
  | I32Div (l r : Instruction)
  | I32Eq (l r : Instruction)
  | I32Neq (l r : Instruction)
  | I32Gt (l r : Instruction)
  | I32Ge (l r : Instruction)
  | I32Lt (l r : Instruction)
  | I32Le (l r : Instruction)
  | I32And (l r : Instruction)
  | I32Or (l r : Instruction)
  | I32Xor (l r : Instruction)
  | F32Add (l r : Instruction)
  | I32Store (addr val : Instruction)
  | I32Load (addr : Instruction)
  | LocalGet (name : String)
  | LocalSet (name : String) (v : Instruction)
  | GlobalGet (name : String)
  | GlobalSet (name : String) (v : Instruction)
  | If (cond : Instruction) (thenInstrs elseInstrs : List Instruction)
  | Loop (label : Nat) (body : List Instruction)
  | Block (label : Nat) (body : List Instruction)
  | BrLoop (label : Nat)
  | Return (v : Instruction)
  | Call (name : String) (args : List Instruction)
  | Local (name : String) (ty : ValueType)
  | SynthReturn
  | Noop
  | Complex (instrs : List Instruction)
  | RawWast (text : String)

/-- Modelled from the spec: `jswt_wast::FunctionType` (crate not under
`src/`).  Spec section 3.4: params are `(name, valueType)` pairs and the
return is optional; structural equality includes parameter names
(spec section 4.3 tie-breaks). -/
structure FunctionType where
  params : List (String × ValueType)
  ret : Option ValueType
deriving DecidableEq, Repr

/-- Modelled from the spec: `jswt_wast::Function` is
`(name, type_idx, instructions)` (spec section 3.4). -/
structure Function where
  name : String
  type_idx : Nat
  instructions : List Instruction

/-- Function import record built by the `native` annotation path in
`CodeGenerator::visit_function_declaration`. -/
structure FunctionImport where
  name : String
  type_idx : Nat
  module : String

/-- Import entry of the module. -/
inductive Import where
  | Function (f : FunctionImport)

/-- Function export record built in `CodeGenerator::visit_function_declaration`. -/
structure FunctionExport where
  function_idx : Nat
  name : String

/-- Export entry of the module. -/
inductive Export where
  | Function (f : FunctionExport)

/-- Global entry, built by `CodeGenerator::visit_variable_statement`. -/
structure GlobalType where
  name : String
  ty : ValueType
  mutable : Bool
  initializer : Instruction

/-- The module being built: ordered lists of imports, types, functions,
globals, exports (spec section 3.4). -/
structure Module where
  imports : List Import := []
  types : List FunctionType := []
  functions : List Function := []
  globals : List GlobalType := []
  exports : List Export := []

/-- The empty module, `Module::default()`. -/
def Module.default : Module := {}

/-- `CodeGenerator::push_import` (`src/jswt-codegen/src/lib.rs`, lines 55-58):
append and return `imports.len() - 1`. -/
def Module.push_import (m : Module) (i : Import) : Module × Nat :=
  let m' := { m with imports := m.imports ++ [i] }
  (m', m'.imports.length - 1)

/-- `CodeGenerator::push_global` (lines 60-63): append and return
`globals.len() - 1`. -/
def Module.push_global (m : Module) (g : GlobalType) : Module × Nat :=
  let m' := { m with globals := m.globals ++ [g] }
  (m', m'.globals.length - 1)

/-- The linear scan of `CodeGenerator::push_type`: index of the first
structurally equal entry. -/
def findTypeIdx : List FunctionType → FunctionType → Option Nat
  | [], _ => none
  | t :: ts, ty => if t = ty then some 0 else (findTypeIdx ts ty).map (· + 1)

/-- `CodeGenerator::push_type` (`src/jswt-codegen/src/lib.rs`, lines 65-73;
identical in `src/jswt-compiler/src/codegen/mod.rs`, lines 85-93): linear
scan for a structurally equal type, reusing its index, else append. -/
def Module.push_type (m : Module) (new_ty : FunctionType) : Module × Nat :=
  match findTypeIdx m.types new_ty with
  | some i => (m, i)
  | none =>
    let m' := { m with types := m.types ++ [new_ty] }
    (m', m'.types.length - 1)

/-- `CodeGenerator::push_function` (lines 75-78): append and return
`functions.len() - 1`. -/
def Module.push_function (m : Module) (f : Function) : Module × Nat :=
  let m' := { m with functions := m.functions ++ [f] }
  (m', m'.functions.length - 1)

/-- `CodeGenerator::push_export` (`src/jswt-codegen/src/lib.rs`, lines 80-83;
identical in `src/jswt-compiler/src/codegen/mod.rs`, lines 100-103): appends
to `exports` but returns `module.functions.len() - 1`. -/
def Module.push_export (m : Module) (e : Export) : Module × Nat :=
  let m' := { m with exports := m.exports ++ [e] }
  (m', m'.functions.length - 1)

/-- Folding `push_type` over a list of types, the module accumulating. -/
def pushAllTypes (m : Module) (l : List FunctionType) : Module :=
  l.foldl (fun m t => (m.push_type t).1) m

theorem findTypeIdx_eq_none {l : List FunctionType} {t : FunctionType}
    (h : t ∉ l) : findTypeIdx l t = none := by
  induction l with
  | nil => rfl
  | cons a l ih =>
    simp only [List.mem_cons, not_or] at h
    simp [findTypeIdx, Ne.symm h.1, ih h.2]

theorem findTypeIdx_mem {l : List FunctionType} {t : FunctionType}
    (h : t ∈ l) : ∃ i, findTypeIdx l t = some i ∧ l[i]? = some t ∧
      ∀ j < i, l[j]? ≠ some t := by
  induction l with
  | nil => cases h
  | cons a l ih =>
    by_cases ha : a = t
    · exact ⟨0, by simp [findTypeIdx, ha]⟩
    · have ht : t ∈ l := by
        rcases List.mem_cons.mp h with h1 | h1
        · exact absurd h1.symm ha
        · exact h1
      obtain ⟨i, hfind, hget, hmin⟩ := ih ht
      refine ⟨i + 1, by simp [findTypeIdx, ha, hfind], by simpa using hget, ?_⟩
      intro j hj
      cases j with
      | zero => simpa using ha
      | succ j => simpa using hmin j (Nat.lt_of_succ_lt_succ hj)

theorem push_type_of_mem {m : Module} {t : FunctionType} (h : t ∈ m.types) :
    (m.push_type t).1 = m := by
  obtain ⟨i, hfind, -⟩ := findTypeIdx_mem h
  simp [Module.push_type, hfind]

theorem push_type_of_not_mem {m : Module} {t : FunctionType} (h : t ∉ m.types) :
    m.push_type t = ({ m with types := m.types ++ [t] }, m.types.length) := by
  simp [Module.push_type, findTypeIdx_eq_none h]

theorem push_type_types_toFinset (m : Module) (t : FunctionType) :
    (m.push_type t).1.types.toFinset = insert t m.types.toFinset := by
  by_cases h : t ∈ m.types
  · rw [push_type_of_mem h, Finset.insert_eq_self.mpr (List.mem_toFinset.mpr h)]
  · rw [push_type_of_not_mem h]
    rw [List.toFinset_append, List.toFinset_cons, List.toFinset_nil,
      Finset.union_comm]
    rw [Finset.insert_union, Finset.empty_union]

theorem push_type_types_nodup {m : Module} (t : FunctionType)
    (h : m.types.Nodup) : (m.push_type t).1.types.Nodup := by
  by_cases ht : t ∈ m.types
  · rw [push_type_of_mem ht]; exact h
  · rw [push_type_of_not_mem ht]
    simpa [List.nodup_append] using ⟨h, ht⟩

theorem pushAllTypes_toFinset (m : Module) (l : List FunctionType) :
    (pushAllTypes m l).types.toFinset = m.types.toFinset ∪ l.toFinset := by
  induction l generalizing m with
  | nil => simp [pushAllTypes]
  | cons t l ih =>
    have : pushAllTypes m (t :: l) = pushAllTypes (m.push_type t).1 l := rfl
    rw [this, ih, push_type_types_toFinset]
    simp [Finset.insert_union, Finset.union_insert]

theorem pushAllTypes_nodup {m : Module} (l : List FunctionType)
    (h : m.types.Nodup) : (pushAllTypes m l).types.Nodup := by
  induction l generalizing m with
  | nil => exact h
  | cons t l ih => exact ih (push_type_types_nodup t h)

end Wast

/-- C7: `push_type` deduplicates function types.  A structurally equal
`FunctionType` (full `(params, ret)` tuple, parameter names included, via the
derived structural equality) already in `module.types` is reused: the first
matching index is returned and the module is unchanged; otherwise the type is
appended at index `types.length`.  Consequently pushing preserves freedom from
structural duplicates, and the types accumulated from an empty module number
exactly the distinct types pushed. -/
theorem push_type_dedup (m : Wast.Module) (t : Wast.FunctionType) :
    (t ∈ m.types → (m.push_type t).1 = m ∧
      (m.push_type t).1.types[(m.push_type t).2]? = some t ∧
      ∀ j < (m.push_type t).2, m.types[j]? ≠ some t) ∧
    (t ∉ m.types →
      m.push_type t = ({ m with types := m.types ++ [t] }, m.types.length)) ∧
    (m.types.Nodup → (m.push_type t).1.types.Nodup) ∧
    (∀ l : List Wast.FunctionType,
      (Wast.pushAllTypes Wast.Module.default l).types.length = l.toFinset.card) := by
  refine ⟨fun h => ?_, Wast.push_type_of_not_mem, Wast.push_type_types_nodup t, fun l => ?_⟩
  · obtain ⟨i, hfind, hget, hmin⟩ := Wast.findTypeIdx_mem h
    have hp : m.push_type t = (m, i) := by simp [Wast.Module.push_type, hfind]
    rw [hp]
    exact ⟨rfl, hget, hmin⟩
  · have hnd : (Wast.pushAllTypes Wast.Module.default l).types.Nodup :=
      Wast.pushAllTypes_nodup l (by simp [Wast.Module.default])
    have hfs : (Wast.pushAllTypes Wast.Module.default l).types.toFinset = l.toFinset := by
      rw [Wast.pushAllTypes_toFinset]
      simp [Wast.Module.default]
    rw [← List.toFinset_card_of_nodup hnd, hfs]

/-- Witness for C7 at a concrete input: pushing `(a: i32) -> i32` into the
empty module appends it at index 0, and pushing it again reuses index 0. -/
theorem push_type_dedup_witness :
    ((⟨[("a", Wast.ValueType.I32)], some Wast.ValueType.I32⟩ : Wast.FunctionType) ∉
        Wast.Module.default.types ∧
      Wast.Module.default.push_type ⟨[("a", Wast.ValueType.I32)], some Wast.ValueType.I32⟩ =
        ({ Wast.Module.default with
            types := [⟨[("a", Wast.ValueType.I32)], some Wast.ValueType.I32⟩] }, 0)) ∧
    ((Wast.Module.default.push_type
          ⟨[("a", Wast.ValueType.I32)], some Wast.ValueType.I32⟩).1.push_type
        ⟨[("a", Wast.ValueType.I32)], some Wast.ValueType.I32⟩).1 =
      (Wast.Module.default.push_type
        ⟨[("a", Wast.ValueType.I32)], some Wast.ValueType.I32⟩).1 := by
  have h1 := (push_type_dedup Wast.Module.default
    ⟨[("a", Wast.ValueType.I32)], some Wast.ValueType.I32⟩).2.1
    (by simp [Wast.Module.default])
  refine ⟨⟨by simp [Wast.Module.default], by simpa [Wast.Module.default] using h1⟩, ?_⟩
  have h2 := (push_type_dedup (Wast.Module.default.push_type
      ⟨[("a", Wast.ValueType.I32)], some Wast.ValueType.I32⟩).1
    ⟨[("a", Wast.ValueType.I32)], some Wast.ValueType.I32⟩).1
  rw [h1] at h2 ⊢
  exact (h2 (by simp)).1

/-- C5 counterexample: on a module holding two functions and no exports,
`push_export` returns 1 (`functions.len() - 1`), while the index of the
appended export — the new `exports` length minus 1 — is 0. -/
theorem push_export_counterexample :
    (({ functions := [⟨"main", 0, []⟩, ⟨"test", 0, []⟩] } : Wast.Module).push_export
        (Wast.Export.Function ⟨0, "main"⟩)).2 = 1 ∧
    ((({ functions := [⟨"main", 0, []⟩, ⟨"test", 0, []⟩] } : Wast.Module).push_export
        (Wast.Export.Function ⟨0, "main"⟩)).1.exports.length - 1) = 0 ∧
    (1 : Nat) ≠ 0 :=
  ⟨rfl, rfl, by decide⟩

/-- C5 amended: `push_import`, `push_global` and `push_function` append to
their list and return the appended element's index (the new length minus 1),
but `push_export`, while appending the export, returns
`module.functions.len() - 1` instead of the export's index. -/
theorem push_export_returns_function_count (m : Wast.Module) (i : Wast.Import)
    (g : Wast.GlobalType) (f : Wast.Function) (e : Wast.Export) :
    m.push_import i = ({ m with imports := m.imports ++ [i] }, m.imports.length) ∧
    m.push_global g = ({ m with globals := m.globals ++ [g] }, m.globals.length) ∧
    m.push_function f = ({ m with functions := m.functions ++ [f] }, m.functions.length) ∧
    m.push_export e = ({ m with exports := m.exports ++ [e] }, m.functions.length - 1) := by
  refine ⟨?_, ?_, ?_, ?_⟩ <;>
    simp [Wast.Module.push_import, Wast.Module.push_global, Wast.Module.push_function,
      Wast.Module.push_export]

/-- Modelled from the spec: the `Display`/`to_string` rendering of
`jswt_common::Type` (the `jswt-common` crate is not under `src/`).  Spec
section 4.2: `T` in `T#add` is "the stringified type of the expression";
primitives render as their source keywords. -/
def tyToString : Ty → String
  | .Primitive .I32 => "i32"
  | .Primitive .U32 => "u32"
  | .Primitive .F32 => "f32"
  | .Primitive .Boolean => "boolean"
  | .Array t => tyToString t ++ "[]"
  | .String => "string"
  | .Object => "object"
  | .Function _ _ => "function"
  | .Void => "void"
  | .Unknown => "unknown"

/-- Binary operators (`jswt-ast/src/expression.rs`), each carrying its span. -/
inductive BinaryOperator where
  | Plus (s : Span)
  | Minus (s : Span)
  | Mult (s : Span)
  | Div (s : Span)
  | Equal (s : Span)
  | NotEqual (s : Span)
  | Greater (s : Span)
  | GreaterEqual (s : Span)
  | Less (s : Span)
  | LessEqual (s : Span)
  | And (s : Span)
  | Or (s : Span)
  | Assign (s : Span)
deriving DecidableEq, Repr

namespace Lo

/-!
The fragment of the pre-lowering AST acted on by
`AstLowering::visit_binary_expression`
(`src/jswt-ast-lowering/src/lib.rs`, lines 114-154).  Expression nodes carry
their semantic type tag (spec section 3.2), read by the pass through
`node.ty()`.  `ArgumentsExpression` inlines the span of its `ArgumentsList`
as `argsSpan`.
-/

/-- Identifier expression of the lowering AST, with its type tag. -/
structure IdentifierExpression where
  span : Span
  ident : Ident
  ty : Ty

mutual
inductive SingleExpression where
  | Additive (e : BinaryExpression)
  | Multiplicative (e : BinaryExpression)
  | Bitwise (e : BinaryExpression)
  | Equality (e : BinaryExpression)
  | Relational (e : BinaryExpression)
  | Arguments (e : ArgumentsExpression)
  | Identifier (e : IdentifierExpression)
  | IntegerLiteral (span : Span) (value : Int) (ty : Ty)

inductive BinaryExpression where
  | mk (span : Span) (left : SingleExpression) (op : BinaryOperator)
      (right : SingleExpression) (ty : Ty)

inductive ArgumentsExpression where
  | mk (span : Span) (ident : SingleExpression) (argsSpan : Span)
      (args : List SingleExpression) (ty : Ty)
end

mutual
/-- Modelled from the spec: the default dispatch of the transform visitor
(`jswt_ast::transform` is not under `src/`).  Spec section 9: the rewrite is
a post-order traversal returning new nodes, visiting children in textual
order; nodes tagged by precedence class reach `visit_binary_expression` with
their tag preserved for the fallback walk. -/
def visit_single_expression : SingleExpression → SingleExpression
  | .Additive e => visit_binary_expression SingleExpression.Additive e
  | .Multiplicative e => visit_binary_expression SingleExpression.Multiplicative e
  | .Bitwise e => visit_binary_expression SingleExpression.Bitwise e
  | .Equality e => visit_binary_expression SingleExpression.Equality e
  | .Relational e => visit_binary_expression SingleExpression.Relational e
  | .Arguments (.mk sp ident asp args ty) =>
      .Arguments (.mk sp (visit_single_expression ident) asp (visit_expression_list args) ty)
  | .Identifier e => .Identifier e
  | .IntegerLiteral sp v ty => .IntegerLiteral sp v ty
termination_by e => (sizeOf e, 0)

/-- Child traversal of an argument list in textual order. -/
def visit_expression_list : List SingleExpression → List SingleExpression
  | [] => []
  | e :: rest => visit_single_expression e :: visit_expression_list rest
termination_by l => (sizeOf l, 0)

/-- `AstLowering::visit_binary_expression`
(`src/jswt-ast-lowering/src/lib.rs`, lines 114-154): `op_type` is the
stringified type of the node; `+` becomes an arguments-call of
`op_type#add(l, r)`, `-` of `op_type#sub(l, r)` (identifier and list spans
synthetic, node span and type preserved), and every other operator falls
through to the default walk. -/
def visit_binary_expression (variant : BinaryExpression → SingleExpression)
    (node : BinaryExpression) : SingleExpression :=
  match node with
  | .mk sp left op right ty =>
    let op_type := tyToString ty
    let left' := visit_single_expression left
    let right' := visit_single_expression right
    match op with
    | .Plus _ =>
        .Arguments (.mk sp
          (.Identifier ⟨Span.synthetic, ⟨Span.synthetic, op_type ++ "#add"⟩, ty⟩)
          Span.synthetic [left', right'] ty)
    | .Minus _ =>
        .Arguments (.mk sp
          (.Identifier ⟨Span.synthetic, ⟨Span.synthetic, op_type ++ "#sub"⟩, ty⟩)
          Span.synthetic [left', right'] ty)
    | other => walk_binary_expression variant (.mk sp left other right ty)
termination_by (sizeOf node, 1)

/-- Modelled from the spec: `transform::walk_binary_expression`
(`jswt_ast::transform` is not under `src/`): the default walk rebuilds the
node, with its precedence tag, from its visited children. -/
def walk_binary_expression (variant : BinaryExpression → SingleExpression)
    (node : BinaryExpression) : SingleExpression :=
  match node with
  | .mk sp left op right ty =>
      variant (.mk sp (visit_single_expression left) op (visit_single_expression right) ty)
termination_by (sizeOf node, 0)
end

end Lo

/-- C1 counterexample: the additive expression `1 + 2` with both operands and
the node itself typed with the primitive `i32` is not passed through as a
binary expression: lowering rewrites it to the arguments-call
`i32#add(1, 2)`. -/
theorem lowering_primitive_plus_counterexample :
    Lo.visit_single_expression
        (Lo.SingleExpression.Additive (Lo.BinaryExpression.mk (Span.real 0 0 5)
          (Lo.SingleExpression.IntegerLiteral (Span.real 0 0 1) 1
            (Ty.Primitive PrimitiveType.I32))
          (BinaryOperator.Plus (Span.real 0 2 3))
          (Lo.SingleExpression.IntegerLiteral (Span.real 0 4 5) 2
            (Ty.Primitive PrimitiveType.I32))
          (Ty.Primitive PrimitiveType.I32))) =
      Lo.SingleExpression.Arguments (Lo.ArgumentsExpression.mk (Span.real 0 0 5)
        (Lo.SingleExpression.Identifier
          ⟨Span.synthetic, ⟨Span.synthetic, "i32#add"⟩, Ty.Primitive PrimitiveType.I32⟩)
        Span.synthetic
        [Lo.SingleExpression.IntegerLiteral (Span.real 0 0 1) 1
            (Ty.Primitive PrimitiveType.I32),
          Lo.SingleExpression.IntegerLiteral (Span.real 0 4 5) 2
            (Ty.Primitive PrimitiveType.I32)]
        (Ty.Primitive PrimitiveType.I32)) ∧
    ∀ e : Lo.BinaryExpression,
      Lo.visit_single_expression
          (Lo.SingleExpression.Additive (Lo.BinaryExpression.mk (Span.real 0 0 5)
            (Lo.SingleExpression.IntegerLiteral (Span.real 0 0 1) 1
              (Ty.Primitive PrimitiveType.I32))
            (BinaryOperator.Plus (Span.real 0 2 3))
            (Lo.SingleExpression.IntegerLiteral (Span.real 0 4 5) 2
              (Ty.Primitive PrimitiveType.I32))
            (Ty.Primitive PrimitiveType.I32))) ≠
        Lo.SingleExpression.Additive e := by
  constructor
  · simp [Lo.visit_single_expression, Lo.visit_binary_expression, tyToString]
  · intro e
    simp [Lo.visit_single_expression, Lo.visit_binary_expression, tyToString]

/-- C1 amended: `AstLowering::visit_binary_expression` rewrites every binary
`+` into an arguments-call of `T#add(l, r)` and every binary `-` into
`T#sub(l, r)` — `T` the stringified type of the expression — regardless of
whether the operand types are primitive; only the remaining operators fall
through to the default walk, which rebuilds the binary node from its visited
children. -/
theorem lowering_rewrites_every_plus_minus
    (variant : Lo.BinaryExpression → Lo.SingleExpression) (sp : Span)
    (left : Lo.SingleExpression) (op : BinaryOperator)
    (right : Lo.SingleExpression) (ty : Ty) :
    (∀ s, op = BinaryOperator.Plus s →
      Lo.visit_binary_expression variant (.mk sp left op right ty) =
        Lo.SingleExpression.Arguments (Lo.ArgumentsExpression.mk sp
          (Lo.SingleExpression.Identifier
            ⟨Span.synthetic, ⟨Span.synthetic, tyToString ty ++ "#add"⟩, ty⟩)
          Span.synthetic
          [Lo.visit_single_expression left, Lo.visit_single_expression right] ty)) ∧
    (∀ s, op = BinaryOperator.Minus s →
      Lo.visit_binary_expression variant (.mk sp left op right ty) =
        Lo.SingleExpression.Arguments (Lo.ArgumentsExpression.mk sp
          (Lo.SingleExpression.Identifier
            ⟨Span.synthetic, ⟨Span.synthetic, tyToString ty ++ "#sub"⟩, ty⟩)
          Span.synthetic
          [Lo.visit_single_expression left, Lo.visit_single_expression right] ty)) ∧
    ((∀ s, op ≠ BinaryOperator.Plus s) → (∀ s, op ≠ BinaryOperator.Minus s) →
      Lo.visit_binary_expression variant (.mk sp left op right ty) =
        variant (.mk sp (Lo.visit_single_expression left) op
          (Lo.visit_single_expression right) ty)) ∧
    Lo.visit_single_expression (.Additive (.mk sp left op right ty)) =
      Lo.visit_binary_expression Lo.SingleExpression.Additive
        (.mk sp left op right ty) ∧
    Lo.visit_single_expression (.Multiplicative (.mk sp left op right ty)) =
      Lo.visit_binary_expression Lo.SingleExpression.Multiplicative
        (.mk sp left op right ty) ∧
    Lo.visit_single_expression (.Bitwise (.mk sp left op right ty)) =
      Lo.visit_binary_expression Lo.SingleExpression.Bitwise
        (.mk sp left op right ty) ∧
    Lo.visit_single_expression (.Equality (.mk sp left op right ty)) =
      Lo.visit_binary_expression Lo.SingleExpression.Equality
        (.mk sp left op right ty) ∧
    Lo.visit_single_expression (.Relational (.mk sp left op right ty)) =
      Lo.visit_binary_expression Lo.SingleExpression.Relational
        (.mk sp left op right ty) := by
  refine ⟨fun s hs => ?_, fun s hs => ?_, fun hp hm => ?_, ?_, ?_, ?_, ?_, ?_⟩
  · subst hs; simp [Lo.visit_binary_expression]
  · subst hs; simp [Lo.visit_binary_expression]
  · cases op <;>
      first
        | exact absurd rfl (hp _)
        | exact absurd rfl (hm _)
        | simp [Lo.visit_binary_expression, Lo.walk_binary_expression]
  all_goals simp [Lo.visit_single_expression]

/-- Witness for C1 at a concrete non-primitive input: a `+` on operands of
class type (stringified `"string"`) becomes the call `string#add(l, r)`. -/
theorem lowering_rewrites_every_plus_minus_witness :
    Lo.visit_binary_expression Lo.SingleExpression.Additive
        (.mk (Span.real 1 0 5)
          (Lo.SingleExpression.Identifier ⟨Span.real 1 0 1, ⟨Span.real 1 0 1, "a"⟩, Ty.String⟩)
          (BinaryOperator.Plus (Span.real 1 2 3))
          (Lo.SingleExpression.Identifier ⟨Span.real 1 4 5, ⟨Span.real 1 4 5, "b"⟩, Ty.String⟩)
          Ty.String) =
      Lo.SingleExpression.Arguments (Lo.ArgumentsExpression.mk (Span.real 1 0 5)
        (Lo.SingleExpression.Identifier
          ⟨Span.synthetic, ⟨Span.synthetic, tyToString Ty.String ++ "#add"⟩, Ty.String⟩)
        Span.synthetic
        [Lo.visit_single_expression
            (Lo.SingleExpression.Identifier ⟨Span.real 1 0 1, ⟨Span.real 1 0 1, "a"⟩, Ty.String⟩),
          Lo.visit_single_expression
            (Lo.SingleExpression.Identifier ⟨Span.real 1 4 5, ⟨Span.real 1 4 5, "b"⟩, Ty.String⟩)]
        Ty.String) :=
  (lowering_rewrites_every_plus_minus Lo.SingleExpression.Additive (Span.real 1 0 5)
    (Lo.SingleExpression.Identifier ⟨Span.real 1 0 1, ⟨Span.real 1 0 1, "a"⟩, Ty.String⟩)
    (BinaryOperator.Plus (Span.real 1 2 3))
    (Lo.SingleExpression.Identifier ⟨Span.real 1 4 5, ⟨Span.real 1 4 5, "b"⟩, Ty.String⟩)
    Ty.String).1 (Span.real 1 2 3) rfl

namespace Cg

/-!
The high-level AST consumed by `CodeGenerator` (`jswt_ast::high_level`;
statement and declaration shapes from `src/jswt-ast/src/high_level/mod.rs`,
expression shapes from the variant set matched in
`src/jswt-codegen/src/lib.rs`).  Expression nodes carry the semantic type
tag attached by the analyzer (spec section 3.2), which the generator reads
through `Typeable::defined_type`.  `ArgumentsExpression` inlines the span of
its `ArgumentsList` as `argsSpan`.
-/

/-- Unary operators: exactly the three matched exhaustively in
`CodeGenerator::visit_unary_expression`. -/
inductive UnaryOperator where
  | Plus (s : Span)
  | Minus (s : Span)
  | Not (s : Span)
deriving DecidableEq, Repr

/-- Identifier expression with its type tag. -/
structure IdentifierExpression where
  span : Span
  ident : Ident
  ty : Ty

/-- String literal (`jswt_ast` literal payloads). -/
structure StringLiteral where
  span : Span
  value : String

/-- Integer literal. -/
structure IntegerLiteral where
  span : Span
  value : Int

/-- Float literal; the `f32` payload is kept as an opaque token since the
generator only moves it into `F32Const`. -/
structure FloatLiteral where
  span : Span
  value : Nat

/-- Boolean literal. -/
structure BooleanLiteral where
  span : Span
  value : Bool

mutual
inductive SingleExpression where
  | Unary (e : UnaryExpression)
  | Assignment (e : BinaryExpression)
  | MemberIndex (e : MemberIndexExpression)
  | Arguments (e : ArgumentsExpression)
  | Multiplicative (e : BinaryExpression)
  | Bitwise (e : BinaryExpression)
  | Additive (e : BinaryExpression)
  | Equality (e : BinaryExpression)
  | Relational (e : BinaryExpression)
  | Identifier (e : IdentifierExpression)
  | Literal (l : Literal)

inductive UnaryExpression where
  | mk (span : Span) (op : UnaryOperator) (expr : SingleExpression)

inductive BinaryExpression where
  | mk (span : Span) (left : SingleExpression) (op : BinaryOperator)
      (right : SingleExpression) (ty : Ty)

inductive MemberIndexExpression where
  | mk (span : Span) (target index : SingleExpression) (ty : Ty)

inductive ArgumentsExpression where
  | mk (span : Span) (identExp : SingleExpression) (argsSpan : Span)
      (args : List SingleExpression) (ty : Ty)

inductive ArrayLiteral where
  | mk (span : Span) (elements : List SingleExpression)

inductive Literal where
  | String (lit : StringLiteral)
  | Integer (lit : IntegerLiteral)
  | Float (lit : FloatLiteral)
  | Boolean (lit : BooleanLiteral)
  | Array (lit : ArrayLiteral)
end

/-- Modelled from the spec: `Typeable::defined_type` (the `jswt-common`
crate is not under `src/`).  Spec section 3.2: every expression node carries
a type tag populated by the semantic analyzer; literals carry their
intrinsic type. -/
def definedType : SingleExpression → Ty
  | .Unary (.mk _ _ e) => definedType e
  | .Assignment (.mk _ _ _ _ ty) => ty
  | .MemberIndex (.mk _ _ _ ty) => ty
  | .Arguments (.mk _ _ _ _ ty) => ty
  | .Multiplicative (.mk _ _ _ _ ty) => ty
  | .Bitwise (.mk _ _ _ _ ty) => ty
  | .Additive (.mk _ _ _ _ ty) => ty
  | .Equality (.mk _ _ _ _ ty) => ty
  | .Relational (.mk _ _ _ _ ty) => ty
  | .Identifier i => i.ty
  | .Literal (.String _) => Ty.String
  | .Literal (.Integer _) => Ty.Primitive PrimitiveType.I32
  | .Literal (.Float _) => Ty.Primitive PrimitiveType.F32
  | .Literal (.Boolean _) => Ty.Primitive PrimitiveType.Boolean
  | .Literal (.Array _) => Ty.Array (Ty.Primitive PrimitiveType.I32)

/-- Let/const target (`jswt-ast/src/high_level/mod.rs`). -/
inductive AssignableElement where
  | Identifier (ident : Ident)

/-- Variable modifier (`let` or `const`); not read by the generator. -/
inductive VariableModifier where
  | Let (s : Span)
  | Const (s : Span)

/-- Return statement. -/
structure ReturnStatement where
  span : Span
  expression : SingleExpression

/-- Variable statement. -/
structure VariableStatement where
  span : Span
  modifier : VariableModifier
  target : AssignableElement
  expression : SingleExpression

/-- Expression statement. -/
structure ExpressionStatement where
  span : Span
  expression : SingleExpression

/-- Empty statement. -/
structure EmptyStatement where
  span : Span

mutual
inductive StatementElement where
  | Block (s : BlockStatement)
  | Empty (s : EmptyStatement)
  | If (s : IfStatement)
  | Iteration (s : IterationStatement)
  | Return (s : ReturnStatement)
  | Variable (s : VariableStatement)
  | Expression (s : ExpressionStatement)

inductive BlockStatement where
  | mk (span : Span) (statements : StatementList)

inductive StatementList where
  | mk (statements : List StatementElement)

inductive IfStatement where
  | mk (span : Span) (condition : SingleExpression)
      (consequence : StatementElement) (alternative : Option StatementElement)

inductive IterationStatement where
  | While (e : WhileIterationElement)

inductive WhileIterationElement where
  | mk (span : Span) (expression : SingleExpression) (statement : StatementElement)
end

/-- Annotation on a function declaration (`jswt-ast/src/high_level/mod.rs`,
`Annotation`). -/
structure Annot where
  span : Span
  name : Ident
  expr : Option SingleExpression

/-- Function decorators: annotations plus the export flag
(`FunctionDecorators`; the `export` field is named `exportFlag` here). -/
structure FunctionDecorators where
  annots : List Annot
  exportFlag : Bool

/-- Primary type annotations (`jswt-ast/src/high_level/mod.rs`); carried by
the AST but not read by the generator, which uses the semantic table. -/
inductive PrimaryTypeAnnot where
  | Reference (i : Ident)
  | Primitive (p : PrimitiveType)
  | Array (t : PrimaryTypeAnnot)

/-- Type annotations. -/
inductive TypeAnnot where
  | Primary (p : PrimaryTypeAnnot)

/-- Formal parameter. -/
structure FormalParameterArg where
  ident : Ident
  type_annot : TypeAnnot

/-- Formal parameter list. -/
structure FormalParameterList where
  parameters : List FormalParameterArg

mutual
inductive SourceElement where
  | FunctionDeclaration (f : FunctionDeclarationElement)
  | Statement (s : StatementElement)

inductive SourceElements where
  | mk (source_elements : List SourceElement)

inductive FunctionDeclarationElement where
  | mk (span : Span) (decorators : FunctionDecorators) (ident : Ident)
      (params : FormalParameterList) (returns : Option TypeAnnot)
      (body : FunctionBody)

inductive FunctionBody where
  | mk (span : Span) (source_elements : SourceElements)
end

/-- Program root. -/
structure Program where
  source_elements : SourceElements

/-- Parsed AST root. -/
structure Ast where
  program : Program

/-- Wast symbol kinds (`jswt-codegen`'s `WastSymbol`): parameter with its
index, local, or global, each with a value type (spec section 3.3). -/
inductive WastSymbol where
  | Param (index : Nat) (ty : Wast.ValueType)
  | Local (ty : Wast.ValueType)
  | Global (ty : Wast.ValueType)
deriving DecidableEq, Repr

/-- One scope of the wast symbol table, in insertion order
(spec section 4.1: `symbols_in_current_scope` iterates in insertion order). -/
abbrev WastScope := List (String × WastSymbol)

/-!
Modelled from the spec: `WastSymbolTable` (`jswt-codegen/src/symbols.rs` is
not under `src/`).  Spec sections 3.3 and 4.1: a stack of scoped maps, the
head of the list being the innermost scope; `push_scope`/`pop_scope` follow
stack discipline, `depth` counts scopes, `lookup` walks outward,
`lookup_current` checks the current scope only, `lookup_global` the
outermost only, and `define` records into the current scope in insertion
order.  The table is freshly created by `CodeGenerator`; depth 1 is the
global scope pushed by `visit_program`.
-/

/-- Find a name inside one scope. -/
def scopeFind (sc : WastScope) (name : String) : Option WastSymbol :=
  (sc.find? (fun p => p.1 == name)).map (·.2)

/-- `WastSymbolTable::push_scope`. -/
def wastPushScope (t : List WastScope) : List WastScope :=
  [] :: t

/-- `WastSymbolTable::pop_scope`; popping an empty stack is a programmer
error (spec section 4.1). -/
def wastPopScope : List WastScope → Option (List WastScope)
  | [] => none
  | _ :: rest => some rest

/-- `WastSymbolTable::define` into the current scope, insertion order. -/
def wastDefine (t : List WastScope) (name : String) (sym : WastSymbol) :
    List WastScope :=
  match t with
  | [] => []
  | sc :: rest => (sc ++ [(name, sym)]) :: rest

/-- `WastSymbolTable::lookup`: walks outward. -/
def wastLookup (t : List WastScope) (name : String) : Option WastSymbol :=
  t.findSome? (fun sc => scopeFind sc name)

/-- `WastSymbolTable::lookup_current`: current scope only. -/
def wastLookupCurrent (t : List WastScope) (name : String) : Option WastSymbol :=
  match t with
  | [] => none
  | sc :: _ => scopeFind sc name

/-- `WastSymbolTable::lookup_global`: outermost scope only. -/
def wastLookupGlobal (t : List WastScope) (name : String) : Option WastSymbol :=
  match t.getLast? with
  | none => none
  | some sc => scopeFind sc name

/-- `WastSymbolTable::depth`. -/
def wastDepth (t : List WastScope) : Nat :=
  t.length

/-- `WastSymbolTable::symbols_in_current_scope`, in insertion order. -/
def symbolsInCurrentScope (t : List WastScope) : WastScope :=
  match t with
  | [] => []
  | sc :: _ => sc

/-- Modelled from the spec: `WastSymbolTable::define_synthetic_local`
(`jswt-codegen/src/symbols.rs` is not under `src/`): defines a fresh
synthetic `Local` in the current scope and returns its name.  The name
scheme is a deterministic stand-in; no claim depends on it. -/
def defineSyntheticLocal (t : List WastScope) (ty : Wast.ValueType) :
    String × List WastScope :=
  let name := "synthetic" ++ Nat.repr (symbolsInCurrentScope t).length
  (name, wastDefine t name (.Local ty))

/-- One scope of the semantic symbol table: declared names with their types
and, for function scopes, the return type (spec section 3.3). -/
structure SemScope where
  symbols : List (String × Ty)
  returns : Option Ty

/-- Modelled from the spec: `jswt_common::SemanticSymbolTable` (the
`jswt-common` crate is not under `src/`).  Spec section 3.3: produced by
semantic analysis, scopes keyed by span so the generator can re-enter the
exact scope of a function body; the generator pushes the global scope, enters
function scopes by span, and pops on exit. -/
structure SemanticSymbolTable where
  globalScope : SemScope
  scopeOf : Span → SemScope
  stack : List SemScope

/-- `SemanticSymbolTable::push_global_scope`. -/
def SemanticSymbolTable.push_global_scope (t : SemanticSymbolTable) :
    SemanticSymbolTable :=
  { t with stack := t.globalScope :: t.stack }

/-- `SemanticSymbolTable::push_scope(span, None)`: re-enter the analyzed
scope keyed by the span. -/
def SemanticSymbolTable.push_scope (t : SemanticSymbolTable) (sp : Span) :
    SemanticSymbolTable :=
  { t with stack := t.scopeOf sp :: t.stack }

/-- `SemanticSymbolTable::pop_scope`. -/
def SemanticSymbolTable.pop_scope (t : SemanticSymbolTable) :
    Option SemanticSymbolTable :=
  match t.stack with
  | [] => none
  | _ :: rest => some { t with stack := rest }

/-- `SemanticSymbolTable::depth`. -/
def SemanticSymbolTable.depth (t : SemanticSymbolTable) : Nat :=
  t.stack.length

/-- `SemanticSymbolTable::lookup`: walks the scope stack outward. -/
def SemanticSymbolTable.lookup (t : SemanticSymbolTable) (name : String) :
    Option Ty :=
  t.stack.findSome? (fun sc => (sc.symbols.find? (fun p => p.1 == name)).map (·.2))

/-- `SemanticSymbolTable::get_scope(span)`. -/
def SemanticSymbolTable.get_scope (t : SemanticSymbolTable) (sp : Span) :
    SemScope :=
  t.scopeOf sp

/-- Modelled from the spec: `ValueType::from(Type)` (the `jswt-wast` crate
is not under `src/`).  `f32` maps to `F32`; every other type (integers,
booleans, pointers) is represented as `I32` (spec sections 3.3-3.4). -/
def valueTypeOf : Ty → Wast.ValueType
  | .Primitive .F32 => .F32
  | _ => .I32

/-- The code generator state (`CodeGenerator` in
`src/jswt-codegen/src/lib.rs`): the module being built, the instruction
scope stack (head = top), the semantic and wast symbol tables and the
monotonically increasing loop-label counter. -/
structure CodeGenerator where
  module : Wast.Module
  scopes : List (List Wast.Instruction)
  semantic_symbols : SemanticSymbolTable
  wast_symbols : List WastScope
  label_counter : Nat

/-- `CodeGenerator::new(semantic_symbols)`: everything else defaulted. -/
def CodeGenerator.new (sem : SemanticSymbolTable) : CodeGenerator :=
  { module := Wast.Module.default, scopes := [], semantic_symbols := sem,
    wast_symbols := [], label_counter := 0 }

/-- `CodeGenerator::push_instruction`: `scopes.last_mut().unwrap()` panics on
an empty stack. -/
def push_instruction (s : CodeGenerator) (inst : Wast.Instruction) :
    Option CodeGenerator :=
  match s.scopes with
  | [] => none
  | top :: rest => some { s with scopes := (top ++ [inst]) :: rest }

/-- `CodeGenerator::push_instruction_scope`. -/
def push_instruction_scope (s : CodeGenerator) : CodeGenerator :=
  { s with scopes := [] :: s.scopes }

/-- `CodeGenerator::pop_instruction_scope`; the callers `.unwrap()` the
result, so an empty stack is a panic at the call sites. -/
def pop_instruction_scope (s : CodeGenerator) :
    Option (List Wast.Instruction × CodeGenerator) :=
  match s.scopes with
  | [] => none
  | top :: rest => some (top, { s with scopes := rest })

/-- `CodeGenerator::visit_identifier_expression`: `LocalGet` when the name is
defined in the current wast scope, else `GlobalGet`. -/
def visit_identifier_expression (s : CodeGenerator)
    (n : IdentifierExpression) : Wast.Instruction :=
  if (wastLookupCurrent s.wast_symbols n.ident.value).isSome then
    .LocalGet n.ident.value
  else
    .GlobalGet n.ident.value

mutual
/-- `CodeGenerator`'s `ExpressionVisitor::visit_single_expression`
dispatch (`src/jswt-codegen/src/lib.rs`, lines 429-443). -/
def visit_single_expression (s : CodeGenerator) :
    SingleExpression → Option (CodeGenerator × Wast.Instruction)
  | .Additive e => visit_binary_expression s e
  | .Multiplicative e => visit_binary_expression s e
  | .Equality e => visit_binary_expression s e
  | .Bitwise e => visit_binary_expression s e
  | .Relational e => visit_binary_expression s e
  | .Arguments e => visit_argument_expression s e
  | .Identifier i => some (s, visit_identifier_expression s i)
  | .Literal l => visit_literal s l
  | .Assignment e => visit_assignment_expression s e
  | .Unary e => visit_unary_expression s e
  | .MemberIndex e => visit_member_index s e
termination_by e => sizeOf e

/-- `CodeGenerator::visit_unary_expression` (lines 445-456): the operand is
visited first; `-x` becomes `I32Sub(I32Const(0), x)`, `!x` becomes
`I32Xor(x, I32Const(-1))`, and `+x` reaches `todo!()`. -/
def visit_unary_expression (s : CodeGenerator) :
    UnaryExpression → Option (CodeGenerator × Wast.Instruction)
  | .mk _ op expr =>
    match visit_single_expression s expr with
    | none => none
    | some (s, exp) =>
      match op with
      | .Plus _ => none
      | .Minus _ => some (s, .I32Sub (.I32Const 0) exp)
      | .Not _ => some (s, .I32Xor exp (.I32Const (-1)))
termination_by e => sizeOf e

/-- `CodeGenerator::visit_binary_expression` (lines 458-518): visit both
operands, then dispatch on the declared type of the left operand; the full
`I32` operator table, `F32Add` for `F32 +`, and `todo!()` everywhere else. -/
def visit_binary_expression (s : CodeGenerator) :
    BinaryExpression → Option (CodeGenerator × Wast.Instruction)
  | .mk _ left op right _ =>
    match visit_single_expression s left with
    | none => none
    | some (s, lhs) =>
      match visit_single_expression s right with
      | none => none
      | some (s, rhs) =>
        match definedType left with
        | .Primitive .I32 =>
          match op with
          | .Plus _ => some (s, .I32Add lhs rhs)
          | .Minus _ => some (s, .I32Sub lhs rhs)
          | .Mult _ => some (s, .I32Mul lhs rhs)
          | .Equal _ => some (s, .I32Eq lhs rhs)
          | .NotEqual _ => some (s, .I32Neq lhs rhs)
          | .Div _ => some (s, .I32Div lhs rhs)
          | .And _ => some (s, .I32And lhs rhs)
          | .Or _ => some (s, .I32Or lhs rhs)
          | .Greater _ => some (s, .I32Gt lhs rhs)
          | .GreaterEqual _ => some (s, .I32Ge lhs rhs)
          | .Less _ => some (s, .I32Lt lhs rhs)
          | .LessEqual _ => some (s, .I32Le lhs rhs)
          | .Assign _ => none
        | .Primitive .U32 => none
        | .Primitive .F32 =>
          match op with
          | .Plus _ => some (s, .F32Add lhs rhs)
          | _ => none
        | .Primitive .Boolean => none
        | .Array _ => none
        | .String => none
        | .Object => none
        | .Function _ _ => none
        | .Void => none
        | .Unknown => none
termination_by e => sizeOf e

/-- `CodeGenerator::visit_argument_expression` (lines 547-562): identifier
call targets only; arguments visited in order into a `Call`. -/
def visit_argument_expression (s : CodeGenerator) :
    ArgumentsExpression → Option (CodeGenerator × Wast.Instruction)
  | .mk _ identExp _ args _ =>
    match identExp with
    | .Identifier ident_exp =>
      match visit_expression_list s args with
      | none => none
      | some (s, instructions) =>
        some (s, .Call ident_exp.ident.value instructions)
    | _ => none
termination_by e => sizeOf e

/-- Argument traversal in order (`node.arguments.arguments.iter().map(...)`). -/
def visit_expression_list (s : CodeGenerator) :
    List SingleExpression → Option (CodeGenerator × List Wast.Instruction)
  | [] => some (s, [])
  | e :: rest =>
    match visit_single_expression s e with
    | none => none
    | some (s, i) =>
      match visit_expression_list s rest with
      | none => none
      | some (s, more) => some (s, i :: more)
termination_by l => sizeOf l

/-- `CodeGenerator::visit_literal` (lines 564-603): integers, floats and
booleans become constants; strings reach `todo!()`; array literals define a
synthetic local pointer, `arrayNew(4)`, one `I32Store(arrayPush(ptr), elem)`
per element and a final `LocalGet(ptr)`, wrapped in `Complex`. -/
def visit_literal (s : CodeGenerator) :
    Literal → Option (CodeGenerator × Wast.Instruction)
  | .String _ => none
  | .Integer lit => some (s, .I32Const lit.value)
  | .Float lit => some (s, .F32Const lit.value)
  | .Boolean lit => some (s, .I32Const (if lit.value then 1 else 0))
  | .Array (.mk _ elements) =>
    let p := defineSyntheticLocal s.wast_symbols .I32
    match visit_array_elements { s with wast_symbols := p.2 } p.1 elements with
    | none => none
    | some (s, stores) =>
      some (s, .Complex
        (.LocalSet p.1 (.Call "arrayNew" [.I32Const 4]) :: (stores ++ [.LocalGet p.1])))
termination_by l => sizeOf l

/-- Element loop of the array-literal case. -/
def visit_array_elements (s : CodeGenerator) (ptr : String) :
    List SingleExpression → Option (CodeGenerator × List Wast.Instruction)
  | [] => some (s, [])
  | e :: rest =>
    match visit_single_expression s e with
    | none => none
    | some (s, value) =>
      match visit_array_elements s ptr rest with
      | none => none
      | some (s, more) =>
        some (s, .I32Store (.Call "arrayPush" [.LocalGet ptr]) value :: more)
termination_by l => sizeOf l

/-- `CodeGenerator::visit_assignment_expression` (lines 377-397): the RHS is
visited first; identifier targets choose `GlobalSet` when the name is in the
outermost wast scope, else `LocalSet`; member-index targets store through the
index pointer; any other target shape is `unimplemented!()` (the RHS state
effects are then discarded by the panic, hence plain `none`). -/
def visit_assignment_expression (s : CodeGenerator) :
    BinaryExpression → Option (CodeGenerator × Wast.Instruction)
  | .mk _ (.Identifier ident_exp) _ right _ =>
    match visit_single_expression s right with
    | none => none
    | some (s, rhs) =>
      match wastLookupGlobal s.wast_symbols ident_exp.ident.value with
      | some _ => some (s, .GlobalSet ident_exp.ident.value rhs)
      | none => some (s, .LocalSet ident_exp.ident.value rhs)
  | .mk _ (.MemberIndex exp) _ right _ =>
    match visit_single_expression s right with
    | none => none
    | some (s, rhs) =>
      match visit_member_index s exp with
      | none => none
      | some (s, index_ptr) => some (s, .I32Store index_ptr rhs)
  | .mk _ _ _ _ _ => none
termination_by e => sizeOf e

/-- `CodeGenerator::visit_member_index` (lines 605-609): `a[i]` becomes
`Call("arrayAt", [a, i])`. -/
def visit_member_index (s : CodeGenerator) :
    MemberIndexExpression → Option (CodeGenerator × Wast.Instruction)
  | .mk _ target index _ =>
    match visit_single_expression s target with
    | none => none
    | some (s, container) =>
      match visit_single_expression s index with
      | none => none
      | some (s, idx) => some (s, .Call "arrayAt" [container, idx])
termination_by e => sizeOf e
end

/-- `CodeGenerator::visit_assignable_element` (lines 399-427): an undefined
let-target is defined as `Global` at wast depth 1, else `Local` (the value
type looked up in the semantic table, whose absence is an `unwrap` panic),
returning the corresponding set-placeholder around `Noop`; a name already
defined on any scope reaches `unreachable!()`. -/
def visit_assignable_element (s : CodeGenerator) :
    AssignableElement → Option (CodeGenerator × Wast.Instruction)
  | .Identifier ident =>
    if (wastLookup s.wast_symbols ident.value).isNone then
      if wastDepth s.wast_symbols = 1 then
        match s.semantic_symbols.lookup ident.value with
        | none => none
        | some ty =>
          some ({ s with
              wast_symbols := wastDefine s.wast_symbols ident.value
                (.Global (valueTypeOf ty)) },
            .GlobalSet ident.value .Noop)
      else
        match s.semantic_symbols.lookup ident.value with
        | none => none
        | some ty =>
          some ({ s with
              wast_symbols := wastDefine s.wast_symbols ident.value
                (.Local (valueTypeOf ty)) },
            .LocalSet ident.value .Noop)
    else none

/-- `CodeGenerator::visit_return_statement` (lines 208-211). -/
def visit_return_statement (s : CodeGenerator) (n : ReturnStatement) :
    Option CodeGenerator :=
  match visit_single_expression s n.expression with
  | none => none
  | some (s, exp) => push_instruction s (.Return exp)

/-- `CodeGenerator::visit_variable_statement` (lines 213-232): the target
placeholder decides between a module global (with the RHS as initializer and
`ty: I32, mutable: true`) and a `LocalSet` instruction. -/
def visit_variable_statement (s : CodeGenerator) (n : VariableStatement) :
    Option CodeGenerator :=
  match visit_assignable_element s n.target with
  | none => none
  | some (s, target) =>
    match visit_single_expression s n.expression with
    | none => none
    | some (s, exp) =>
      match target with
      | .GlobalSet name _ =>
        some { s with module := (s.module.push_global ⟨name, .I32, true, exp⟩).1 }
      | .LocalSet name _ => push_instruction s (.LocalSet name exp)
      | _ => push_instruction s exp

/-- `CodeGenerator::visit_expression_statement` (lines 234-237). -/
def visit_expression_statement (s : CodeGenerator) (n : ExpressionStatement) :
    Option CodeGenerator :=
  match visit_single_expression s n.expression with
  | none => none
  | some (s, isr) => push_instruction s isr

mutual
/-- `StatementVisitor::visit_statement_element` dispatch (lines 132-142). -/
def visit_statement_element (s : CodeGenerator) :
    StatementElement → Option CodeGenerator
  | .Block st => visit_block_statement s st
  | .Empty _ => some s
  | .Return st => visit_return_statement s st
  | .Variable st => visit_variable_statement s st
  | .Expression st => visit_expression_statement s st
  | .If st => visit_if_statement s st
  | .Iteration st => visit_iteration_statement s st
termination_by e => sizeOf e

/-- `CodeGenerator::visit_block_statement` (lines 144-146). -/
def visit_block_statement (s : CodeGenerator) :
    BlockStatement → Option CodeGenerator
  | .mk _ stmts => visit_statement_list s stmts
termination_by e => sizeOf e

/-- `CodeGenerator::visit_statement_list` (lines 239-243). -/
def visit_statement_list (s : CodeGenerator) :
    StatementList → Option CodeGenerator
  | .mk stmts => visit_statements s stmts
termination_by e => sizeOf e

/-- Statement iteration of `visit_statement_list`. -/
def visit_statements (s : CodeGenerator) :
    List StatementElement → Option CodeGenerator
  | [] => some s
  | st :: rest =>
    match visit_statement_element s st with
    | none => none
    | some s => visit_statements s rest
termination_by l => sizeOf l

/-- `CodeGenerator::visit_if_statement` (lines 152-172): condition, then a
captured consequence scope, then a captured alternative scope (empty when
absent), then `If(cond, cons, alt)` into the caller scope. -/
def visit_if_statement (s : CodeGenerator) : IfStatement → Option CodeGenerator
  | .mk _ condition consequence alternative =>
    match visit_single_expression s condition with
    | none => none
    | some (s, cond) =>
      let s := push_instruction_scope s
      match visit_statement_element s consequence with
      | none => none
      | some s =>
        match pop_instruction_scope s with
        | none => none
        | some (cons, s) =>
          let s := push_instruction_scope s
          match visit_optional_statement s alternative with
          | none => none
          | some s =>
            match pop_instruction_scope s with
            | none => none
            | some (alt, s) =>
              push_instruction s (.If cond cons alt)
termination_by e => sizeOf e

/-- The `if let Some(alternative)` branch of `visit_if_statement`. -/
def visit_optional_statement (s : CodeGenerator) :
    Option StatementElement → Option CodeGenerator
  | some alt => visit_statement_element s alt
  | none => some s
termination_by o => sizeOf o

/-- `CodeGenerator::visit_iteration_statement` (lines 174-178). -/
def visit_iteration_statement (s : CodeGenerator) :
    IterationStatement → Option CodeGenerator
  | .While e => visit_while_iteration_element s e
termination_by e => sizeOf e

/-- `CodeGenerator::visit_while_iteration_element` (lines 180-206): take a
fresh label from the counter, push the outer scope, visit the condition,
push the inner scope, visit the body, append `BrLoop(label)`, pop to get the
`If` body, append `If(cond, body, [])`, pop to get the loop body, and push
`Loop(label, body)` into the caller scope. -/
def visit_while_iteration_element (s : CodeGenerator) :
    WhileIterationElement → Option CodeGenerator
  | .mk _ expression statement =>
    let loop_label := s.label_counter
    let s := { s with label_counter := s.label_counter + 1 }
    let s := push_instruction_scope s
    match visit_single_expression s expression with
    | none => none
    | some (s, cond) =>
      let s := push_instruction_scope s
      match visit_statement_element s statement with
      | none => none
      | some s =>
        match push_instruction s (.BrLoop loop_label) with
        | none => none
        | some s =>
          match pop_instruction_scope s with
          | none => none
          | some (if_scope, s) =>
            match push_instruction s (.If cond if_scope []) with
            | none => none
            | some s =>
              match pop_instruction_scope s with
              | none => none
              | some (loop_scope, s) =>
                push_instruction s (.Loop loop_label loop_scope)
termination_by e => sizeOf e
end

/-- The annotation loop of `visit_function_declaration` (lines 284-314):
`wast(str)` emits `RawWast(str)` and marks the body inlined; `native(str)`
pushes a `FunctionImport` and marks the function inlined and predefined;
non-string payloads for either reach `todo!()`; `inline` and unknown
annotations have no effect. -/
def process_annots (s : CodeGenerator) (function_name : String) (type_idx : Nat)
    (has_inlined_body is_predefined_function : Bool) :
    List Annot → Option (CodeGenerator × Bool × Bool)
  | [] => some (s, has_inlined_body, is_predefined_function)
  | a :: rest =>
    match a.name.value with
    | "wast" =>
      match a.expr with
      | some (.Literal (.String string_lit)) =>
        match push_instruction s (.RawWast string_lit.value) with
        | none => none
        | some s =>
          process_annots s function_name type_idx true is_predefined_function rest
      | _ => none
    | "native" =>
      match a.expr with
      | some (.Literal (.String string_lit)) =>
        let s := { s with
          module := (s.module.push_import
            (.Function ⟨function_name, type_idx, string_lit.value⟩)).1 }
        process_annots s function_name type_idx true true rest
      | _ => none
    | _ =>
      process_annots s function_name type_idx has_inlined_body
        is_predefined_function rest

/-- The parameter loop of `visit_function_declaration` (lines 253-268): each
parameter's type is looked up in the semantic table (`unwrap` on absence), a
`Param(index, ty)` symbol is defined in the wast scope and `(name, ty)` is
recorded for the function type. -/
def define_params (s : CodeGenerator) :
    List FormalParameterArg → Nat → Option (CodeGenerator × List (String × Wast.ValueType))
  | [], _ => some (s, [])
  | arg :: rest, index =>
    match s.semantic_symbols.lookup arg.ident.value with
    | none => none
    | some symTy =>
      let ty := valueTypeOf symTy
      let s := { s with
        wast_symbols := wastDefine s.wast_symbols arg.ident.value (.Param index ty) }
      match define_params s rest (index + 1) with
      | none => none
      | some (s, more) => some (s, (arg.ident.value, ty) :: more)

/-- The local-declaration insertion of `visit_function_declaration`
(lines 342-347): every `Local` symbol of the current wast scope, iterated in
insertion order, is inserted at the front of the instruction list. -/
def insert_locals (syms : WastScope) (instructions : List Wast.Instruction) :
    List Wast.Instruction :=
  syms.foldl
    (fun acc p =>
      match p.2 with
      | .Local lty => Wast.Instruction.Local p.1 lty :: acc
      | _ => acc)
    instructions

/-- The commit step of `visit_function_declaration` (lines 349-365): unless
the function is predefined, push it onto `module.functions` and, when marked
for export, push a `FunctionExport` for its index. -/
def commit_function (s : CodeGenerator) (function_name : String)
    (type_idx : Nat) (instructions : List Wast.Instruction)
    (is_predefined_function exportFlag : Bool) : CodeGenerator :=
  match is_predefined_function with
  | false =>
    let pf := s.module.push_function ⟨function_name, type_idx, instructions⟩
    let s := { s with module := pf.1 }
    match exportFlag with
    | true =>
      { s with module :=
        (s.module.push_export (.Function ⟨pf.2, function_name⟩)).1 }
    | false => s
  | true => s

mutual
/-- `CodeGenerator::visit_source_elements` (lines 117-121). -/
def visit_source_elements (s : CodeGenerator) :
    SourceElements → Option CodeGenerator
  | .mk elems => visit_source_element_list s elems
termination_by e => (sizeOf e, 0)

/-- Source-element iteration. -/
def visit_source_element_list (s : CodeGenerator) :
    List SourceElement → Option CodeGenerator
  | [] => some s
  | e :: rest =>
    match visit_source_element s e with
    | none => none
    | some s => visit_source_element_list s rest
termination_by l => (sizeOf l, 0)

/-- `CodeGenerator::visit_source_element` (lines 123-130). -/
def visit_source_element (s : CodeGenerator) :
    SourceElement → Option CodeGenerator
  | .FunctionDeclaration f => visit_function_declaration s f
  | .Statement st => visit_statement_element s st
termination_by e => (sizeOf e, 0)

/-- `CodeGenerator::visit_function_declaration` (lines 245-370): push the
semantic scope keyed by the span and a fresh wast scope, define parameter
symbols, resolve the return type from the semantic scope, dedupe the
function type, push an instruction scope, process annotations, generate the
body instructions, insert local declarations at the front, commit the
function (and export descriptor) unless predefined, and pop both scopes. -/
def visit_function_declaration (s : CodeGenerator) :
    FunctionDeclarationElement → Option CodeGenerator
  | .mk span decorators ident params _returns body =>
    let function_name := ident.value
    let s := { s with semantic_symbols := s.semantic_symbols.push_scope span }
    let s := { s with wast_symbols := wastPushScope s.wast_symbols }
    match define_params s params.parameters 0 with
    | none => none
    | some (s, type_params) =>
      let scope := s.semantic_symbols.get_scope span
      let return_type := scope.returns.map valueTypeOf
      let pt := s.module.push_type ⟨type_params, return_type⟩
      let type_idx := pt.2
      let s := { s with module := pt.1 }
      let s := push_instruction_scope s
      match process_annots s function_name type_idx false false decorators.annots with
      | none => none
      | some (s, has_inlined_body, _is_predefined) =>
        match gen_function_instructions s return_type has_inlined_body body with
        | none => none
        | some (s, instructions) =>
          let instructions := insert_locals (symbolsInCurrentScope s.wast_symbols) instructions
          let s := commit_function s function_name type_idx instructions
            _is_predefined decorators.exportFlag
          match wastPopScope s.wast_symbols with
          | none => none
          | some w =>
            match s.semantic_symbols.pop_scope with
            | none => none
            | some sem => some { s with wast_symbols := w, semantic_symbols := sem }
termination_by n => (sizeOf n, 0)

/-- The body-generation section of `visit_function_declaration`
(lines 316-340): if not inlined, visit the body, pop the instruction scope,
wrap it in `Block(0, _)` and, when a return type exists, define the
synthetic `return` local and append `SynthReturn`; if inlined, the popped
scope is used as-is. -/
def gen_function_instructions (s : CodeGenerator)
    (return_type : Option Wast.ValueType) (has_inlined_body : Bool)
    (body : FunctionBody) :
    Option (CodeGenerator × List Wast.Instruction) :=
  match has_inlined_body with
  | false =>
    match visit_function_body s body with
    | none => none
    | some s =>
      match pop_instruction_scope s with
      | none => none
      | some (scopeInstrs, s) =>
        match return_type with
        | some rt =>
          some ({ s with
              wast_symbols := wastDefine s.wast_symbols "return" (.Local rt) },
            [Wast.Instruction.Block 0 scopeInstrs, Wast.Instruction.SynthReturn])
        | none => some (s, [Wast.Instruction.Block 0 scopeInstrs])
  | true =>
    match pop_instruction_scope s with
    | none => none
    | some (scopeInstrs, s) => some (s, scopeInstrs)
termination_by (sizeOf body, 1)

/-- `CodeGenerator::visit_function_body` (lines 372-374). -/
def visit_function_body (s : CodeGenerator) :
    FunctionBody → Option CodeGenerator
  | .mk _ elems => visit_source_elements s elems
termination_by b => (sizeOf b, 0)
end

/-- `CodeGenerator::visit_program` (lines 103-115): push the semantic global
scope and a wast scope, visit the source elements, check
`debug_assert_eq!(semantic depth, 1)`, and pop both scopes. -/
def visit_program (s : CodeGenerator) (node : Program) : Option CodeGenerator :=
  let s := { s with semantic_symbols := s.semantic_symbols.push_global_scope }
  let s := { s with wast_symbols := wastPushScope s.wast_symbols }
  match visit_source_elements s node.source_elements with
  | none => none
  | some s =>
    if s.semantic_symbols.depth = 1 then
      match s.semantic_symbols.pop_scope with
      | none => none
      | some sem =>
        match wastPopScope s.wast_symbols with
        | none => none
        | some w => some { s with semantic_symbols := sem, wast_symbols := w }
    else none

/-- `CodeGenerator::generate_module` (lines 48-53) from a fresh generator. -/
def generate_module (sem : SemanticSymbolTable) (ast : Ast) :
    Option CodeGenerator :=
  visit_program (CodeGenerator.new sem) ast.program

/-!
Preservation invariants.  Expression visitation never touches the module,
the instruction-scope stack, the label counter or the semantic table, and
changes at most the contents of the current wast scope; statement visitation
restores the instruction-scope stack shape, appending only to the caller's
top scope (spec section 3.4: every push is matched by a pop).
-/

/-- State components preserved by every expression visit. -/
def ExprPres (s s' : CodeGenerator) : Prop :=
  s'.module = s.module ∧ s'.scopes = s.scopes ∧ s'.label_counter = s.label_counter ∧
  s'.semantic_symbols = s.semantic_symbols ∧
  s'.wast_symbols.length = s.wast_symbols.length ∧
  s'.wast_symbols.tail = s.wast_symbols.tail

theorem ExprPres.exprRfl (s : CodeGenerator) : ExprPres s s :=
  ⟨by rfl, by rfl, by rfl, by rfl, by rfl, by rfl⟩

theorem ExprPres.exprTrans {a b c : CodeGenerator} (h1 : ExprPres a b)
    (h2 : ExprPres b c) : ExprPres a c := by
  obtain ⟨m1, s1, l1, e1, w1, t1⟩ := h1
  obtain ⟨m2, s2, l2, e2, w2, t2⟩ := h2
  exact ⟨m2.trans m1, s2.trans s1, l2.trans l1, e2.trans e1, w2.trans w1, t2.trans t1⟩

theorem exprPres_defineSynthetic (s : CodeGenerator) (ty : Wast.ValueType) :
    ExprPres s { s with wast_symbols := (defineSyntheticLocal s.wast_symbols ty).2 } := by
  refine ⟨by rfl, by rfl, by rfl, by rfl, ?_, ?_⟩ <;>
    (unfold defineSyntheticLocal wastDefine; cases s.wast_symbols <;> simp)

set_option maxHeartbeats 4000000 in
theorem visit_expr_pres :
    (∀ s e s' i, visit_single_expression s e = some (s', i) → ExprPres s s') ∧
    (∀ s e s' i, visit_member_index s e = some (s', i) → ExprPres s s') ∧
    (∀ s e s' i, visit_unary_expression s e = some (s', i) → ExprPres s s') ∧
    (∀ s e s' i, visit_assignment_expression s e = some (s', i) → ExprPres s s') ∧
    (∀ s l s' i, visit_literal s l = some (s', i) → ExprPres s s') ∧
    (∀ s p l s' li, visit_array_elements s p l = some (s', li) → ExprPres s s') ∧
    (∀ s e s' i, visit_argument_expression s e = some (s', i) → ExprPres s s') ∧
    (∀ s l s' li, visit_expression_list s l = some (s', li) → ExprPres s s') ∧
    (∀ s e s' i, visit_binary_expression s e = some (s', i) → ExprPres s s') := by
  apply visit_single_expression.mutual_induct <;> intros <;> rename_i h <;>
    (simp only [visit_single_expression, visit_member_index, visit_unary_expression,
       visit_assignment_expression, visit_literal, visit_array_elements,
       visit_argument_expression, visit_expression_list, visit_binary_expression] at h;
     try simp only [*] at h;
     first
       | exact Option.noConfusion h
       | solve_by_elim [ExprPres.exprRfl, ExprPres.exprTrans, exprPres_defineSynthetic]
       | (simp only [Option.some.injEq, Prod.mk.injEq] at h;
          obtain ⟨h1, h2⟩ := h; subst h1;
          solve_by_elim [ExprPres.exprRfl, ExprPres.exprTrans, exprPres_defineSynthetic])
       | skip)

def ScopesExtend : List (List Wast.Instruction) → List (List Wast.Instruction) → Prop
  | [], scopes' => scopes' = []
  | top :: rest, scopes' => ∃ added, scopes' = (top ++ added) :: rest

theorem ScopesExtend.scopesRfl (sc : List (List Wast.Instruction)) : ScopesExtend sc sc := by
  cases sc with
  | nil => simp [ScopesExtend]
  | cons top rest => exact ⟨[], by simp⟩

theorem ScopesExtend.scopesTrans {a b c : List (List Wast.Instruction)}
    (h1 : ScopesExtend a b) (h2 : ScopesExtend b c) : ScopesExtend a c := by
  cases a with
  | nil =>
    simp only [ScopesExtend] at h1; subst h1
    simpa [ScopesExtend] using h2
  | cons top rest =>
    obtain ⟨x, rfl⟩ := h1
    obtain ⟨y, rfl⟩ := h2
    exact ⟨x ++ y, by simp⟩

def StmtPres (s s' : CodeGenerator) : Prop :=
  s'.semantic_symbols = s.semantic_symbols ∧
  s'.wast_symbols.length = s.wast_symbols.length ∧
  s'.wast_symbols.tail = s.wast_symbols.tail ∧
  s.label_counter ≤ s'.label_counter ∧
  ScopesExtend s.scopes s'.scopes

theorem StmtPres.stmtRfl (s : CodeGenerator) : StmtPres s s :=
  ⟨by rfl, by rfl, by rfl, Nat.le_refl _, ScopesExtend.scopesRfl _⟩

theorem StmtPres.stmtTrans {a b c : CodeGenerator} (h1 : StmtPres a b)
    (h2 : StmtPres b c) : StmtPres a c := by
  obtain ⟨e1, w1, t1, l1, s1⟩ := h1
  obtain ⟨e2, w2, t2, l2, s2⟩ := h2
  exact ⟨e2.trans e1, w2.trans w1, t2.trans t1, Nat.le_trans l1 l2, s1.scopesTrans s2⟩

theorem ExprPres.stmtPres {s s' : CodeGenerator} (h : ExprPres s s') : StmtPres s s' := by
  obtain ⟨m, sc, l, e, w, t⟩ := h
  exact ⟨e, w, t, Nat.le_of_eq l.symm, sc ▸ ScopesExtend.scopesRfl _⟩

theorem stmtPres_expr {s : CodeGenerator} {e s' i}
    (h : visit_single_expression s e = some (s', i)) : StmtPres s s' :=
  (visit_expr_pres.1 _ _ _ _ h).stmtPres

theorem stmtPres_push {s : CodeGenerator} {i s'}
    (h : push_instruction s i = some s') : StmtPres s s' := by
  unfold push_instruction at h
  split at h
  · exact Option.noConfusion h
  · rename_i top rest heq
    obtain rfl := Option.some.inj h
    exact ⟨by rfl, by rfl, by rfl, Nat.le_refl _, by rw [heq]; exact ⟨[i], rfl⟩⟩

theorem stmtPres_bump (s : CodeGenerator) :
    StmtPres s { s with label_counter := s.label_counter + 1 } :=
  ⟨by rfl, by rfl, by rfl, Nat.le_succ _, ScopesExtend.scopesRfl _⟩

theorem stmtPres_window {s0 s1 : CodeGenerator} {instrs s2}
    (h1 : StmtPres (push_instruction_scope s0) s1)
    (h2 : pop_instruction_scope s1 = some (instrs, s2)) : StmtPres s0 s2 := by
  obtain ⟨hsem, hlen, htail, hlab, hsc⟩ := h1
  obtain ⟨added, hs1⟩ := hsc
  unfold pop_instruction_scope at h2
  rw [hs1] at h2
  simp only [Option.some.injEq, Prod.mk.injEq] at h2
  obtain ⟨-, rfl⟩ := h2
  exact ⟨hsem, hlen, htail, hlab, ScopesExtend.scopesRfl _⟩

theorem wastDefine_length (t : List WastScope) (n : String) (sym : WastSymbol) :
    (wastDefine t n sym).length = t.length := by
  cases t <;> simp [wastDefine]

theorem wastDefine_tail (t : List WastScope) (n : String) (sym : WastSymbol) :
    (wastDefine t n sym).tail = t.tail := by
  cases t <;> simp [wastDefine]

theorem stmtPres_assignable {s : CodeGenerator} {t s' i}
    (h : visit_assignable_element s t = some (s', i)) : StmtPres s s' := by
  cases t with
  | Identifier ident =>
    unfold visit_assignable_element at h
    repeat' split at h
    all_goals
      first
        | exact Option.noConfusion h
        | (simp only [Option.some.injEq, Prod.mk.injEq] at h;
           obtain ⟨h1, -⟩ := h; subst h1;
           exact ⟨by rfl, wastDefine_length _ _ _, wastDefine_tail _ _ _,
             Nat.le_refl _, ScopesExtend.scopesRfl _⟩)

theorem stmtPres_return {s : CodeGenerator} {n s'}
    (h : visit_return_statement s n = some s') : StmtPres s s' := by
  unfold visit_return_statement at h
  split at h
  · exact Option.noConfusion h
  · rename_i s1 exp heq
    exact (stmtPres_expr heq).stmtTrans (stmtPres_push h)

theorem stmtPres_variable {s : CodeGenerator} {n s'}
    (h : visit_variable_statement s n = some s') : StmtPres s s' := by
  unfold visit_variable_statement at h
  split at h
  · exact Option.noConfusion h
  · rename_i s1 target heq1
    split at h
    · exact Option.noConfusion h
    · rename_i s2 exp heq2
      have h12 : StmtPres s s2 := (stmtPres_assignable heq1).stmtTrans (stmtPres_expr heq2)
      split at h
      · obtain rfl := Option.some.inj h
        exact h12.stmtTrans ⟨by rfl, by rfl, by rfl, Nat.le_refl _, ScopesExtend.scopesRfl _⟩
      · exact h12.stmtTrans (stmtPres_push h)
      · exact h12.stmtTrans (stmtPres_push h)

theorem stmtPres_exprStmt {s : CodeGenerator} {n s'}
    (h : visit_expression_statement s n = some s') : StmtPres s s' := by
  unfold visit_expression_statement at h
  split at h
  · exact Option.noConfusion h
  · rename_i s1 isr heq
    exact (stmtPres_expr heq).stmtTrans (stmtPres_push h)

set_option maxHeartbeats 2000000 in
theorem visit_stmt_pres :
    (∀ s e s', visit_statement_element s e = some s' → StmtPres s s') ∧
    (∀ s e s', visit_iteration_statement s e = some s' → StmtPres s s') ∧
    (∀ s e s', visit_while_iteration_element s e = some s' → StmtPres s s') ∧
    (∀ s e s', visit_if_statement s e = some s' → StmtPres s s') ∧
    (∀ s o s', visit_optional_statement s o = some s' → StmtPres s s') ∧
    (∀ s e s', visit_block_statement s e = some s' → StmtPres s s') ∧
    (∀ s e s', visit_statement_list s e = some s' → StmtPres s s') ∧
    (∀ s l s', visit_statements s l = some s' → StmtPres s s') := by
  apply visit_statement_element.mutual_induct <;> intros <;> rename_i h <;>
    (first
      | simp only [visit_statement_element] at h
      | simp only [visit_iteration_statement] at h
      | simp only [visit_while_iteration_element] at h
      | simp only [visit_if_statement] at h
      | simp only [visit_optional_statement] at h
      | simp only [visit_block_statement] at h
      | simp only [visit_statement_list] at h
      | simp only [visit_statements] at h
      | skip) <;>
    (try simp only [*] at h) <;>
    (first
      | exact Option.noConfusion h
      | solve_by_elim [StmtPres.stmtRfl, StmtPres.stmtTrans, stmtPres_expr,
          stmtPres_push, stmtPres_bump, stmtPres_window, stmtPres_assignable,
          stmtPres_return, stmtPres_variable, stmtPres_exprStmt]
      | (obtain rfl := Option.some.inj h;
         solve_by_elim [StmtPres.stmtRfl, StmtPres.stmtTrans, stmtPres_expr,
           stmtPres_push, stmtPres_bump, stmtPres_window, stmtPres_assignable,
           stmtPres_return, stmtPres_variable, stmtPres_exprStmt])
      | skip)
  case case15 =>
    rename_i s0 sp expr stmt looplab sbump souter s6 exp hexpr sinner s4 hstmt
      s3 hbr ifsc s2 hpop1 s1 hpush2 loopsc sfin hpop2 ih s'
    have p2 : StmtPres sinner s3 := (ih _ hstmt).stmtTrans (stmtPres_push hbr)
    have p3 : StmtPres s6 s2 := stmtPres_window p2 hpop1
    have p4 : StmtPres s6 s1 := p3.stmtTrans (stmtPres_push hpush2)
    have p5 : StmtPres souter s1 := (stmtPres_expr hexpr).stmtTrans p4
    have p6 : StmtPres sbump sfin := stmtPres_window p5 hpop2
    exact (stmtPres_bump s0).stmtTrans (p6.stmtTrans (stmtPres_push h))
  case case21 =>
    rename_i s0 sp cond consq altern s6 exp hexpr spush s4 hstmt csc s3 hpop1
      spush2 s1 hopt asc sfin hpop2 ih2 ih1 s'
    have p1 : StmtPres s0 s6 := stmtPres_expr hexpr
    have p3 : StmtPres s6 s3 := stmtPres_window (ih2 _ hstmt) hpop1
    have p5 : StmtPres s3 sfin := stmtPres_window (ih1 _ hopt) hpop2
    exact p1.stmtTrans ((p3.stmtTrans p5).stmtTrans (stmtPres_push h))

/-- Preservation for the body-generation step: the instruction scope pushed
for the function is popped, everything else follows statement preservation. -/
def GenPres (s s' : CodeGenerator) : Prop :=
  s'.semantic_symbols = s.semantic_symbols ∧
  s'.wast_symbols.length = s.wast_symbols.length ∧
  s'.wast_symbols.tail = s.wast_symbols.tail ∧
  s.label_counter ≤ s'.label_counter ∧
  s'.scopes = s.scopes.tail

theorem exprPres_wastDefine (s : CodeGenerator) (n : String) (sym : WastSymbol) :
    ExprPres s { s with wast_symbols := wastDefine s.wast_symbols n sym } :=
  ⟨by rfl, by rfl, by rfl, by rfl, wastDefine_length _ _ _, wastDefine_tail _ _ _⟩

theorem stmtPres_module (s : CodeGenerator) (m : Wast.Module) :
    StmtPres s { s with module := m } :=
  ⟨by rfl, by rfl, by rfl, Nat.le_refl _, ScopesExtend.scopesRfl _⟩

theorem define_params_pres : ∀ (l : List FormalParameterArg) (s : CodeGenerator)
    (idx : Nat) (s' : CodeGenerator) (tp : List (String × Wast.ValueType)),
    define_params s l idx = some (s', tp) → ExprPres s s' := by
  intro l
  induction l with
  | nil =>
    intro s idx s' tp h
    simp only [define_params, Option.some.injEq, Prod.mk.injEq] at h
    obtain ⟨h1, -⟩ := h
    subst h1
    exact ExprPres.exprRfl _
  | cons a rest ih =>
    intro s idx s' tp h
    unfold define_params at h
    cases hlook : s.semantic_symbols.lookup a.ident.value with
    | none => rw [hlook] at h; exact Option.noConfusion h
    | some ty =>
      rw [hlook] at h
      dsimp only [] at h
      cases hrec : define_params { s with
          wast_symbols := wastDefine s.wast_symbols a.ident.value
            (WastSymbol.Param idx (valueTypeOf ty)) } rest (idx + 1) with
      | none => rw [hrec] at h; exact Option.noConfusion h
      | some p =>
        obtain ⟨s2, more2⟩ := p
        rw [hrec] at h
        simp only [Option.some.injEq, Prod.mk.injEq] at h
        obtain ⟨h1, -⟩ := h
        subst h1
        exact (exprPres_wastDefine _ _ _).exprTrans (ih _ _ _ _ hrec)

theorem process_annots_pres : ∀ (l : List Annot) (s : CodeGenerator)
    (fn : String) (ti : Nat) (b1 b2 : Bool) (s' : CodeGenerator) (r : Bool × Bool),
    process_annots s fn ti b1 b2 l = some (s', r) → StmtPres s s' := by
  intro l
  induction l with
  | nil =>
    intro s fn ti b1 b2 s' r h
    simp only [process_annots, Option.some.injEq, Prod.mk.injEq] at h
    obtain ⟨h1, -⟩ := h
    subst h1
    exact StmtPres.stmtRfl _
  | cons a rest ih =>
    intro s fn ti b1 b2 s' r h
    unfold process_annots at h
    split at h
    · split at h
      · split at h
        · exact Option.noConfusion h
        · rename_i snew heq
          exact (stmtPres_push heq).stmtTrans (ih _ _ _ _ _ _ _ h)
      · exact Option.noConfusion h
    · split at h
      · exact (stmtPres_module _ _).stmtTrans (ih _ _ _ _ _ _ _ h)
      · exact Option.noConfusion h
    · exact ih _ _ _ _ _ _ _ h

theorem genPres_steps {s b : CodeGenerator} {instrs c}
    (hb : StmtPres s b) (hp : pop_instruction_scope b = some (instrs, c)) :
    GenPres s c := by
  obtain ⟨hsem, hlen, htail, hlab, hsc⟩ := hb
  unfold pop_instruction_scope at hp
  cases hS : s.scopes with
  | nil =>
    rw [hS] at hsc
    simp only [ScopesExtend] at hsc
    rw [hsc] at hp
    exact Option.noConfusion hp
  | cons top rest =>
    rw [hS] at hsc
    obtain ⟨a, hb2⟩ := hsc
    rw [hb2] at hp
    simp only [Option.some.injEq, Prod.mk.injEq] at hp
    obtain ⟨-, rfl⟩ := hp
    exact ⟨hsem, hlen, htail, hlab, by simp [hS]⟩

theorem genPres_wastDefine {s c : CodeGenerator} (h : GenPres s c)
    (n : String) (sym : WastSymbol) :
    GenPres s { c with wast_symbols := wastDefine c.wast_symbols n sym } := by
  obtain ⟨hsem, hlen, htail, hlab, hsc⟩ := h
  exact ⟨hsem, (wastDefine_length _ _ _).trans hlen,
    (wastDefine_tail _ _ _).trans htail, hlab, hsc⟩

theorem commit_function_fields (s : CodeGenerator) (fn : String) (ti : Nat)
    (instrs : List Wast.Instruction) (ipd ex : Bool) :
    (commit_function s fn ti instrs ipd ex).scopes = s.scopes ∧
    (commit_function s fn ti instrs ipd ex).semantic_symbols = s.semantic_symbols ∧
    (commit_function s fn ti instrs ipd ex).wast_symbols = s.wast_symbols ∧
    (commit_function s fn ti instrs ipd ex).label_counter = s.label_counter := by
  cases ipd <;> cases ex <;> exact ⟨rfl, rfl, rfl, rfl⟩

theorem sem_pop_push (t : SemanticSymbolTable) (sp : Span) :
    (t.push_scope sp).pop_scope = some t := by
  rfl

set_option maxHeartbeats 2000000 in
theorem visit_src_pres :
    (∀ s e s', visit_source_elements s e = some s' → StmtPres s s') ∧
    (∀ s l s', visit_source_element_list s l = some s' → StmtPres s s') ∧
    (∀ s e s', visit_source_element s e = some s' → StmtPres s s') ∧
    (∀ s f s', visit_function_declaration s f = some s' → StmtPres s s') ∧
    (∀ s rt hib b s' instrs,
      gen_function_instructions s rt hib b = some (s', instrs) → GenPres s s') ∧
    (∀ s b s', visit_function_body s b = some s' → StmtPres s s') := by
  apply visit_source_elements.mutual_induct <;> intros <;> rename_i h <;>
    (first
      | simp only [visit_source_elements] at h
      | simp only [visit_source_element_list] at h
      | simp only [visit_source_element] at h
      | simp only [visit_function_declaration] at h
      | simp only [gen_function_instructions] at h
      | simp only [visit_function_body] at h
      | skip) <;>
    (try simp only [*] at h) <;>
    (first
      | exact Option.noConfusion h
      | solve_by_elim [StmtPres.stmtRfl, StmtPres.stmtTrans, visit_stmt_pres.1]
      | (obtain rfl := Option.some.inj h;
         solve_by_elim [StmtPres.stmtRfl, StmtPres.stmtTrans])
      | skip)
  case case12 =>
    rename_i s0 span dec idt prm rets body fname s7 s6 s5 more hparams scope rty pt
      tidx s4 s3 s2 hib ipd hannots s1 instrs1 hgen instrs sfin w hpopw sem hpops ih s'
    obtain ⟨hm5, hsc5, hl5, he5, hw5, ht5⟩ := define_params_pres _ _ _ _ _ hparams
    obtain ⟨he2, hw2, ht2, hl2, hsc2⟩ := process_annots_pres _ _ _ _ _ _ _ _ hannots
    obtain ⟨he1, hw1, ht1, hl1, hsc1⟩ := ih _ _ hgen
    obtain ⟨hcsc, hcsem, hcwast, hclab⟩ := commit_function_fields s1 fname tidx instrs
      ipd dec.exportFlag
    obtain rfl := Option.some.inj h
    have hwt1 : s1.wast_symbols.tail = s0.wast_symbols := by
      rw [ht1, ht2]
      show s5.wast_symbols.tail = s0.wast_symbols
      rw [ht5]
      rfl
    have hwfin : w = s0.wast_symbols := by
      have hpopw' : wastPopScope
          (commit_function s1 fname tidx instrs ipd dec.exportFlag).wast_symbols =
            some w := hpopw
      rw [hcwast] at hpopw'
      cases hW : s1.wast_symbols with
      | nil => rw [hW] at hpopw'; exact Option.noConfusion hpopw'
      | cons a b =>
        rw [hW] at hpopw'
        have hbw : b = w := Option.some.inj hpopw'
        have hb0 : b = s0.wast_symbols := by
          have h5 := hwt1
          rw [hW] at h5
          exact h5
        exact hbw ▸ hb0
    have hsemfin : sem = s0.semantic_symbols := by
      have hpops' : (commit_function s1 fname tidx instrs ipd
          dec.exportFlag).semantic_symbols.pop_scope = some sem := hpops
      rw [hcsem, he1, he2] at hpops'
      have hp2 : s5.semantic_symbols.pop_scope = some sem := hpops'
      rw [he5] at hp2
      have hp3 : (s0.semantic_symbols.push_scope span).pop_scope = some sem := hp2
      rw [sem_pop_push] at hp3
      exact (Option.some.inj hp3).symm
    have hscopes1 : s1.scopes = s0.scopes := by
      rw [hsc1]
      have h30 : ScopesExtend ([] :: s5.scopes) s2.scopes := hsc2
      rw [hsc5] at h30
      have h4 : ∃ added, s2.scopes = ([] ++ added) :: s0.scopes := h30
      obtain ⟨a, hA⟩ := h4
      rw [hA]
      rfl
    refine ⟨hsemfin, ?_, ?_, ?_, ?_⟩
    · show w.length = s0.wast_symbols.length
      rw [hwfin]
    · show w.tail = s0.wast_symbols.tail
      rw [hwfin]
    · show s0.label_counter ≤
        (commit_function s1 fname tidx instrs ipd dec.exportFlag).label_counter
      rw [hclab]
      calc s0.label_counter = s5.label_counter := by rw [hl5]
        _ ≤ s2.label_counter := hl2
        _ ≤ s1.label_counter := hl1
    · show ScopesExtend s0.scopes
        (commit_function s1 fname tidx instrs ipd dec.exportFlag).scopes
      rw [hcsc, hscopes1]
      exact ScopesExtend.scopesRfl _
  case case15 =>
    rename_i s0 body b hbody ifsc c hpop rt ih s' instrs
    have g : GenPres s0 c := genPres_steps (ih _ hbody) hpop
    simp only [Option.some.injEq, Prod.mk.injEq] at h
    obtain ⟨h1, -⟩ := h
    subst h1
    exact genPres_wastDefine g _ _
  case case16 =>
    rename_i s0 body b hbody ifsc c hpop ih s' instrs
    simp only [Option.some.injEq, Prod.mk.injEq] at h
    obtain ⟨h1, -⟩ := h
    subst h1
    exact genPres_steps (ih _ hbody) hpop
  case case18 =>
    rename_i s1 rty body ifsc c hpop s' instrs
    simp only [Option.some.injEq, Prod.mk.injEq] at h
    obtain ⟨h1, -⟩ := h
    subst h1
    exact genPres_steps (StmtPres.stmtRfl s1) hpop

end Cg

namespace WasmBin

/-- Value types of the binary serializer (`src/src/wasm/section.rs`,
lines 172-176): `I32`, `F32` and the synthetic `Void` return marker. -/
inductive ValType where
  | I32
  | F32
  | Void
deriving DecidableEq, Repr

/-- The byte encoding `impl From<ValType> for u8`
(`src/src/wasm/section.rs`, lines 178-196). -/
def valTypeByte : ValType → Nat
  | .I32 => 0x7f
  | .F32 => 0x7d
  | .Void => 0x00

/-- The serializer's function type (`src/src/wasm/section.rs`,
lines 198-203). -/
structure FunctionType where
  name : String
  exportFlag : Bool
  params : List ValType
  ret : ValType

/-- `FunctionType::serialize` (`src/src/wasm/section.rs`, lines 205-234):
`0x60`, the parameter count as a byte (`len() as u8`, hence mod 256), the
parameter value-type bytes, then the return count and return type bytes. -/
def FunctionType.serialize (f : FunctionType) : List Nat :=
  let res := [0x60]
  let paramBytes := f.params.map valTypeByte
  let res := res ++ [f.params.length % 256]
  let res := res ++ paramBytes
  match f.ret with
  | .Void => res ++ [0x00]
  | _ => res ++ [0x01, valTypeByte f.ret]

end WasmBin

/-- C8: the binary serializer emits a function type as `0x60`, the parameter
count, one byte per parameter value type, then the return count and return
types, with `I32` encoded as `0x7F`, `F32` as `0x7D` and `Void` as `0x00`; a
`Void` return contributes return-count 0 and no return byte, and a non-void
return contributes return-count 1 followed by its value-type byte.  (The
parameter count is emitted as a single byte, so it is assumed below 256.) -/
theorem functionType_serialize_layout (f : WasmBin.FunctionType)
    (h : f.params.length < 256) :
    (f.ret = WasmBin.ValType.Void →
      f.serialize = 0x60 :: f.params.length ::
        (f.params.map WasmBin.valTypeByte ++ [0x00])) ∧
    (f.ret ≠ WasmBin.ValType.Void →
      f.serialize = 0x60 :: f.params.length ::
        (f.params.map WasmBin.valTypeByte ++ [0x01, WasmBin.valTypeByte f.ret])) ∧
    WasmBin.valTypeByte WasmBin.ValType.I32 = 0x7F ∧
    WasmBin.valTypeByte WasmBin.ValType.F32 = 0x7D ∧
    WasmBin.valTypeByte WasmBin.ValType.Void = 0x00 := by
  have hmod : f.params.length % 256 = f.params.length := Nat.mod_eq_of_lt h
  refine ⟨fun hv => ?_, fun hv => ?_, rfl, rfl, rfl⟩
  · simp [WasmBin.FunctionType.serialize, hv, hmod]
  · cases hr : f.ret <;>
      simp_all [WasmBin.FunctionType.serialize, hmod]

/-- Witness for C8 on the repository's own test vector
(`test_serialize_function_type_with_2_i32_params`): the type
`(i32, i32) -> i32` serializes to `60 02 7F 7F 01 7F`, and the void type with
the same parameters to `60 02 7F 7F 00`. -/
theorem functionType_serialize_layout_witness :
    (⟨"", false, [WasmBin.ValType.I32, WasmBin.ValType.I32],
        WasmBin.ValType.I32⟩ : WasmBin.FunctionType).serialize =
      [0x60, 0x02, 0x7f, 0x7f, 0x01, 0x7f] ∧
    (⟨"", false, [WasmBin.ValType.I32, WasmBin.ValType.I32],
        WasmBin.ValType.Void⟩ : WasmBin.FunctionType).serialize =
      [0x60, 0x02, 0x7f, 0x7f, 0x00] := by
  constructor
  · have h := (functionType_serialize_layout
      ⟨"", false, [WasmBin.ValType.I32, WasmBin.ValType.I32], WasmBin.ValType.I32⟩
      (by simp)).2.1 (by simp)
    simpa [WasmBin.valTypeByte] using h
  · have h := (functionType_serialize_layout
      ⟨"", false, [WasmBin.ValType.I32, WasmBin.ValType.I32], WasmBin.ValType.Void⟩
      (by simp)).1 rfl
    simpa [WasmBin.valTypeByte] using h

/-!
Concrete states and structural lemmas shared by the remaining claims.
-/

namespace Wast

mutual
/-- All labels of `Loop` and `BrLoop` nodes in an instruction tree — the
labels issued from the generator's counter. -/
def loopLabels : Instruction → List Nat
  | .I32Const _ => []
  | .F32Const _ => []
  | .I32Add a b => loopLabels a ++ loopLabels b
  | .I32Sub a b => loopLabels a ++ loopLabels b
  | .I32Mul a b => loopLabels a ++ loopLabels b
  | .I32Div a b => loopLabels a ++ loopLabels b
  | .I32Eq a b => loopLabels a ++ loopLabels b
  | .I32Neq a b => loopLabels a ++ loopLabels b
  | .I32Gt a b => loopLabels a ++ loopLabels b
  | .I32Ge a b => loopLabels a ++ loopLabels b
  | .I32Lt a b => loopLabels a ++ loopLabels b
  | .I32Le a b => loopLabels a ++ loopLabels b
  | .I32And a b => loopLabels a ++ loopLabels b
  | .I32Or a b => loopLabels a ++ loopLabels b
  | .I32Xor a b => loopLabels a ++ loopLabels b
  | .F32Add a b => loopLabels a ++ loopLabels b
  | .I32Store a b => loopLabels a ++ loopLabels b
  | .I32Load a => loopLabels a
  | .LocalGet _ => []
  | .LocalSet _ v => loopLabels v
  | .GlobalGet _ => []
  | .GlobalSet _ v => loopLabels v
  | .If c t e => loopLabels c ++ loopLabelsList t ++ loopLabelsList e
  | .Loop l body => l :: loopLabelsList body
  | .Block _ body => loopLabelsList body
  | .BrLoop l => [l]
  | .Return v => loopLabels v
  | .Call _ args => loopLabelsList args
  | .Local _ _ => []
  | .SynthReturn => []
  | .Noop => []
  | .Complex instrs => loopLabelsList instrs
  | .RawWast _ => []
termination_by i => sizeOf i

/-- Loop labels of a list of instructions. -/
def loopLabelsList : List Instruction → List Nat
  | [] => []
  | i :: rest => loopLabels i ++ loopLabelsList rest
termination_by l => sizeOf l
end

end Wast

namespace Cg

/-- A concrete semantic symbol table with empty analysis results, used for
concrete runs of the generator. -/
def semEmpty : SemanticSymbolTable :=
  { globalScope := ⟨[], none⟩, scopeOf := fun _ => ⟨[], none⟩, stack := [] }

/-- Loop labels present anywhere in the instruction-scope stack. -/
def scopesLabels (scopes : List (List Wast.Instruction)) : List Nat :=
  match scopes with
  | [] => []
  | top :: rest => Wast.loopLabelsList top ++ scopesLabels rest

theorem push_instruction_eq {s : CodeGenerator} {i s'}
    (h : push_instruction s i = some s') :
    ∃ top rest, s.scopes = top :: rest ∧
      s' = { s with scopes := (top ++ [i]) :: rest } := by
  unfold push_instruction at h
  split at h
  · exact Option.noConfusion h
  · rename_i top rest heq
    exact ⟨top, rest, heq, (Option.some.inj h).symm⟩

theorem pop_instruction_scope_eq {s : CodeGenerator} {x s'}
    (h : pop_instruction_scope s = some (x, s')) :
    ∃ rest, s.scopes = x :: rest ∧ s' = { s with scopes := rest } := by
  unfold pop_instruction_scope at h
  split at h
  · exact Option.noConfusion h
  · rename_i top rest heq
    simp only [Option.some.injEq, Prod.mk.injEq] at h
    obtain ⟨rfl, rfl⟩ := h
    exact ⟨rest, heq, rfl⟩

/-- A function declaration carrying no `wast` and no `native` annotation
leaves the state and the inline/predefined flags untouched. -/
theorem process_annots_no_annots : ∀ (l : List Annot) (s : CodeGenerator)
    (fn : String) (ti : Nat) (b1 b2 : Bool),
    (∀ a ∈ l, a.name.value ≠ "wast" ∧ a.name.value ≠ "native") →
    process_annots s fn ti b1 b2 l = some (s, b1, b2) := by
  intro l
  induction l with
  | nil => intro s fn ti b1 b2 _; rfl
  | cons a rest ih =>
    intro s fn ti b1 b2 hno
    have ha := hno a (by simp)
    unfold process_annots
    split
    · rename_i heq; exact absurd heq ha.1
    · rename_i heq; exact absurd heq ha.2
    · exact ih s fn ti b1 b2 (fun x hx => hno x (List.mem_cons_of_mem _ hx))

/-- `insert_locals` prepends a (possibly empty) block of `Local`
declarations to the instruction list it is given. -/
theorem insert_locals_shape : ∀ (syms : WastScope) (instrs : List Wast.Instruction),
    ∃ L, insert_locals syms instrs = L ++ instrs ∧
      ∀ x ∈ L, ∃ nm t, x = Wast.Instruction.Local nm t := by
  intro syms
  induction syms with
  | nil => intro instrs; exact ⟨[], rfl, by simp⟩
  | cons p rest ih =>
    intro instrs
    obtain ⟨nm, sym⟩ := p
    cases sym with
    | Param i t =>
      have hstep : insert_locals ((nm, WastSymbol.Param i t) :: rest) instrs =
          insert_locals rest instrs := rfl
      rw [hstep]; exact ih instrs
    | Global t =>
      have hstep : insert_locals ((nm, WastSymbol.Global t) :: rest) instrs =
          insert_locals rest instrs := rfl
      rw [hstep]; exact ih instrs
    | Local t =>
      have hstep : insert_locals ((nm, WastSymbol.Local t) :: rest) instrs =
          insert_locals rest (Wast.Instruction.Local nm t :: instrs) := rfl
      rw [hstep]
      obtain ⟨L, hL, hall⟩ := ih (Wast.Instruction.Local nm t :: instrs)
      refine ⟨L ++ [Wast.Instruction.Local nm t], ?_, ?_⟩
      · rw [hL]; simp
      · intro x hx
        rcases List.mem_append.mp hx with hmem | hmem
        · exact hall x hmem
        · exact ⟨nm, t, by simpa using hmem⟩

/-- Instructions already present survive `insert_locals`. -/
theorem insert_locals_mem_acc : ∀ (syms : WastScope) (instrs : List Wast.Instruction)
    (x : Wast.Instruction), x ∈ instrs → x ∈ insert_locals syms instrs := by
  intro syms
  induction syms with
  | nil => intro instrs x hx; exact hx
  | cons p rest ih =>
    intro instrs x hx
    obtain ⟨nm, sym⟩ := p
    cases sym with
    | Param i t => exact ih instrs x hx
    | Global t => exact ih instrs x hx
    | Local t =>
      exact ih (Wast.Instruction.Local nm t :: instrs) x (List.mem_cons_of_mem _ hx)

/-- Every `Local` symbol of the scope contributes a `Local` declaration. -/
theorem insert_locals_mem : ∀ (syms : WastScope) (instrs : List Wast.Instruction)
    (nm : String) (t : Wast.ValueType), (nm, WastSymbol.Local t) ∈ syms →
    Wast.Instruction.Local nm t ∈ insert_locals syms instrs := by
  intro syms
  induction syms with
  | nil => intro instrs nm t hx; simp at hx
  | cons p rest ih =>
    intro instrs nm t hx
    rcases List.mem_cons.mp hx with hhd | htl
    · obtain rfl := hhd.symm
      exact insert_locals_mem_acc rest _ _ (by simp)
    · obtain ⟨nm2, sym2⟩ := p
      cases sym2 with
      | Param i t2 => exact ih instrs nm t htl
      | Global t2 => exact ih instrs nm t htl
      | Local t2 => exact ih (Wast.Instruction.Local nm2 t2 :: instrs) nm t htl

/-- A non-predefined commit appends exactly one function record. -/
theorem commit_function_functions (s : CodeGenerator) (fn : String) (ti : Nat)
    (instrs : List Wast.Instruction) (ex : Bool) :
    (commit_function s fn ti instrs false ex).module.functions =
      s.module.functions ++ [⟨fn, ti, instrs⟩] := by
  cases ex <;> rfl

/-- `pop_instruction_scope` only changes the instruction-scope stack. -/
theorem pop_instruction_scope_fields {s : CodeGenerator} {i : List Wast.Instruction}
    {c : CodeGenerator} (h : pop_instruction_scope s = some (i, c)) :
    c.module = s.module ∧ c.semantic_symbols = s.semantic_symbols ∧
    c.wast_symbols = s.wast_symbols ∧ c.label_counter = s.label_counter := by
  unfold pop_instruction_scope at h
  split at h
  · exact Option.noConfusion h
  · simp only [Option.some.injEq, Prod.mk.injEq] at h
    obtain ⟨-, rfl⟩ := h
    exact ⟨rfl, rfl, rfl, rfl⟩

end Cg

/-- C2 counterexample: generating code for the empty program from a fresh
generator succeeds, but `visit_program` pops the global wast scope at the
end, so the run finishes with wast symbol-table depth 0, not 1. -/
theorem visit_program_final_depth_counterexample :
    (Cg.visit_program (Cg.CodeGenerator.new Cg.semEmpty)
        ⟨Cg.SourceElements.mk []⟩).map (fun s => Cg.wastDepth s.wast_symbols) =
      some 0 ∧ (0 : Nat) ≠ 1 := by
  constructor
  · simp [Cg.visit_program, Cg.CodeGenerator.new, Cg.visit_source_elements,
      Cg.visit_source_element_list, Cg.SemanticSymbolTable.push_global_scope,
      Cg.SemanticSymbolTable.depth, Cg.SemanticSymbolTable.pop_scope,
      Cg.wastPushScope, Cg.wastPopScope, Cg.wastDepth, Cg.semEmpty]
  · decide

/-- C2 amended: for every semantic table and program, a successful run of
`visit_program` from a fresh generator reaches, right after visiting all
source elements, a state of wast depth exactly 1 (only the global scope) with
an empty instruction-scope stack; `visit_program` then pops the global scope,
so the finished run has wast depth 0 and an empty instruction-scope stack —
every scope pushed during generation, the global one included, is popped. -/
theorem visit_program_scope_discipline (sem : Cg.SemanticSymbolTable)
    (p : Cg.Program) (s' : Cg.CodeGenerator)
    (h : Cg.visit_program (Cg.CodeGenerator.new sem) p = some s') :
    Cg.wastDepth s'.wast_symbols = 0 ∧ s'.scopes = [] ∧
    ∃ s1, Cg.visit_source_elements
        { module := Wast.Module.default, scopes := [],
          semantic_symbols := sem.push_global_scope,
          wast_symbols := Cg.wastPushScope [], label_counter := 0 }
        p.source_elements = some s1 ∧
      Cg.wastDepth s1.wast_symbols = 1 ∧ s1.scopes = [] := by
  unfold Cg.visit_program at h
  dsimp only [] at h
  split at h
  · exact Option.noConfusion h
  · rename_i s1 heq
    obtain ⟨hsem1, hwl1, hwt1, hlab1, hsc1⟩ := Cg.visit_src_pres.1 _ _ _ heq
    have hs1scopes : s1.scopes = [] := hsc1
    have hs1wl : s1.wast_symbols.length = 1 := hwl1
    split at h
    · split at h
      · exact Option.noConfusion h
      · rename_i sem2 hpopsem
        split at h
        · exact Option.noConfusion h
        · rename_i w hpopw
          obtain rfl := Option.some.inj h
          have hw : w = [] := by
            cases hW : s1.wast_symbols with
            | nil => rw [hW] at hpopw; exact Option.noConfusion hpopw
            | cons a b =>
              rw [hW] at hpopw
              have hb : b = w := Option.some.inj hpopw
              rw [hW] at hs1wl
              simp only [List.length_cons] at hs1wl
              have hb0 : b = [] := List.length_eq_zero.mp (by omega)
              rw [← hb, hb0]
          refine ⟨by simp [Cg.wastDepth, hw], hs1scopes, s1, heq, by
            simp [Cg.wastDepth, hs1wl], hs1scopes⟩
    · exact Option.noConfusion h

/-- Witness for C2 at the empty program: the run succeeds and returns to the
fresh-generator state, final wast depth 0, instruction-scope stack empty. -/
theorem visit_program_scope_discipline_witness :
    Cg.visit_program (Cg.CodeGenerator.new Cg.semEmpty) ⟨Cg.SourceElements.mk []⟩ =
      some (Cg.CodeGenerator.new Cg.semEmpty) ∧
    (Cg.wastDepth (Cg.CodeGenerator.new Cg.semEmpty).wast_symbols = 0 ∧
      (Cg.CodeGenerator.new Cg.semEmpty).scopes = [] ∧
      ∃ s1, Cg.visit_source_elements
          { module := Wast.Module.default, scopes := [],
            semantic_symbols := Cg.semEmpty.push_global_scope,
            wast_symbols := Cg.wastPushScope [], label_counter := 0 }
          (Cg.SourceElements.mk []) = some s1 ∧
        Cg.wastDepth s1.wast_symbols = 1 ∧ s1.scopes = []) := by
  have heval : Cg.visit_program (Cg.CodeGenerator.new Cg.semEmpty)
      ⟨Cg.SourceElements.mk []⟩ = some (Cg.CodeGenerator.new Cg.semEmpty) := by
    simp [Cg.visit_program, Cg.CodeGenerator.new, Cg.visit_source_elements,
      Cg.visit_source_element_list, Cg.SemanticSymbolTable.push_global_scope,
      Cg.SemanticSymbolTable.depth, Cg.SemanticSymbolTable.pop_scope,
      Cg.wastPushScope, Cg.wastPopScope, Cg.semEmpty]
  exact ⟨heval, visit_program_scope_discipline _ _ _ heval⟩

/-- C3: a `while` statement pushes into the caller's instruction scope
exactly one instruction, `Loop(L, loop_instrs)`, where `L` is the value of
the monotonically increasing label counter at entry (so, under the invariant
that all previously issued labels are below the counter, distinct from every
label already present), and `loop_instrs` is exactly
`[If(cond, body_instrs ++ [BrLoop L], [])]`, the condition and body
instructions coming from the condition and body visits. -/
theorem visit_while_loop_shape (s : Cg.CodeGenerator) (sp : Span)
    (expr : Cg.SingleExpression) (stmt : Cg.StatementElement)
    (s' : Cg.CodeGenerator)
    (h : Cg.visit_while_iteration_element s (.mk sp expr stmt) = some s')
    (hb : ∀ l ∈ Cg.scopesLabels s.scopes, l < s.label_counter) :
    ∃ top rest cond s1 bodyInstrs s2,
      s.scopes = top :: rest ∧
      Cg.visit_single_expression
        (Cg.push_instruction_scope { s with label_counter := s.label_counter + 1 })
        expr = some (s1, cond) ∧
      Cg.visit_statement_element (Cg.push_instruction_scope s1) stmt = some s2 ∧
      s2.scopes = bodyInstrs :: s1.scopes ∧
      s'.scopes = (top ++ [Wast.Instruction.Loop s.label_counter
        [Wast.Instruction.If cond
          (bodyInstrs ++ [Wast.Instruction.BrLoop s.label_counter]) []]]) :: rest ∧
      s.label_counter < s'.label_counter ∧
      (∀ l ∈ Cg.scopesLabels s.scopes, l ≠ s.label_counter) := by
  unfold Cg.visit_while_iteration_element at h
  dsimp only [] at h
  split at h
  · exact Option.noConfusion h
  · rename_i s1 cond hexpr
    split at h
    · exact Option.noConfusion h
    · rename_i s2 hstmt
      split at h
      · exact Option.noConfusion h
      · rename_i s3 hbr
        split at h
        · exact Option.noConfusion h
        · rename_i ifsc s4 hpop1
          split at h
          · exact Option.noConfusion h
          · rename_i s5 hif
            split at h
            · exact Option.noConfusion h
            · rename_i loopsc s6 hpop2
              -- expression preserves the pushed outer scope
              obtain ⟨-, hsc1, hl1, -, -, -⟩ := Cg.visit_expr_pres.1 _ _ _ _ hexpr
              have hs1scopes : s1.scopes = [] :: s.scopes := hsc1
              -- body extends the pushed inner scope
              obtain ⟨-, -, -, hl2, hsc2⟩ := Cg.visit_stmt_pres.1 _ _ _ hstmt
              obtain ⟨bodyInstrs, hs2scopes⟩ :
                  ∃ a, s2.scopes = a :: s1.scopes := by
                obtain ⟨a, ha⟩ := (hsc2 : Cg.ScopesExtend ([] :: s1.scopes) s2.scopes)
                exact ⟨[] ++ a, ha⟩
              -- BrLoop push
              obtain ⟨t3, r3, ht3, rfl⟩ := Cg.push_instruction_eq hbr
              rw [hs2scopes] at ht3
              obtain ⟨rfl, rfl⟩ : bodyInstrs = t3 ∧ s1.scopes = r3 :=
                ⟨(List.cons.inj ht3).1, (List.cons.inj ht3).2⟩
              -- pop the inner scope
              obtain ⟨r4, hr4, rfl⟩ := Cg.pop_instruction_scope_eq hpop1
              simp only [] at hr4
              obtain ⟨rfl, rfl⟩ : ifsc = bodyInstrs ++ [Wast.Instruction.BrLoop s.label_counter] ∧
                  r4 = s1.scopes := ⟨((List.cons.inj hr4).1).symm, ((List.cons.inj hr4).2).symm⟩
              -- If push into the outer scope
              obtain ⟨t5, r5, ht5, rfl⟩ := Cg.push_instruction_eq hif
              simp only [] at ht5
              rw [hs1scopes] at ht5
              obtain ⟨rfl, rfl⟩ : ([] : List Wast.Instruction) = t5 ∧ s.scopes = r5 :=
                ⟨(List.cons.inj ht5).1, (List.cons.inj ht5).2⟩
              -- pop the outer scope
              obtain ⟨r6, hr6, rfl⟩ := Cg.pop_instruction_scope_eq hpop2
              simp only [List.nil_append] at hr6
              obtain ⟨rfl, rfl⟩ : loopsc = [Wast.Instruction.If cond
                  (bodyInstrs ++ [Wast.Instruction.BrLoop s.label_counter]) []] ∧
                  r6 = s.scopes := ⟨((List.cons.inj hr6).1).symm, ((List.cons.inj hr6).2).symm⟩
              -- final Loop push into the caller scope
              obtain ⟨top, rest, htop, rfl⟩ := Cg.push_instruction_eq h
              simp only [] at htop
              refine ⟨top, rest, cond, s1, bodyInstrs, _, htop, hexpr, hstmt, hs2scopes,
                by simp [htop], ?_, fun l hl => Nat.ne_of_lt (hb l hl)⟩
              have e1 : s1.label_counter = s.label_counter + 1 := hl1
              have e2 : s1.label_counter ≤ s2.label_counter := hl2
              show s.label_counter < s2.label_counter
              omega

/-- Witness for C3 on `while (true) {}` from a generator with one empty
caller scope and counter 0: exactly `Loop(0, [If(I32Const 1, [BrLoop 0], [])])`
is pushed. -/
theorem visit_while_loop_shape_witness :
    Cg.visit_while_iteration_element
        { module := Wast.Module.default, scopes := [[]],
          semantic_symbols := Cg.semEmpty, wast_symbols := [], label_counter := 0 }
        (.mk Span.synthetic
          (.Literal (.Boolean ⟨Span.synthetic, true⟩)) (.Empty ⟨Span.synthetic⟩)) =
      some { module := Wast.Module.default,
             scopes := [[Wast.Instruction.Loop 0 [Wast.Instruction.If
               (Wast.Instruction.I32Const 1) [Wast.Instruction.BrLoop 0] []]]],
             semantic_symbols := Cg.semEmpty, wast_symbols := [], label_counter := 1 } ∧
    (∃ top rest cond s1 bodyInstrs s2,
      ({ module := Wast.Module.default, scopes := [[]],
          semantic_symbols := Cg.semEmpty, wast_symbols := [],
          label_counter := 0 } : Cg.CodeGenerator).scopes = top :: rest ∧
      Cg.visit_single_expression
        (Cg.push_instruction_scope { module := Wast.Module.default, scopes := [[]],
                                     semantic_symbols := Cg.semEmpty, wast_symbols := [],
                                     label_counter := 0 + 1 })
        (.Literal (.Boolean ⟨Span.synthetic, true⟩)) = some (s1, cond) ∧
      Cg.visit_statement_element (Cg.push_instruction_scope s1)
        (.Empty ⟨Span.synthetic⟩) = some s2 ∧
      s2.scopes = bodyInstrs :: s1.scopes ∧
      ({ module := Wast.Module.default,
         scopes := [[Wast.Instruction.Loop 0 [Wast.Instruction.If
           (Wast.Instruction.I32Const 1) [Wast.Instruction.BrLoop 0] []]]],
         semantic_symbols := Cg.semEmpty, wast_symbols := [],
         label_counter := 1 } : Cg.CodeGenerator).scopes =
        (top ++ [Wast.Instruction.Loop 0
          [Wast.Instruction.If cond
            (bodyInstrs ++ [Wast.Instruction.BrLoop 0]) []]]) :: rest ∧
      (0 : Nat) < 1 ∧
      (∀ l ∈ Cg.scopesLabels [([] : List Wast.Instruction)], l ≠ 0)) := by
  have heval : Cg.visit_while_iteration_element
      { module := Wast.Module.default, scopes := [[]],
        semantic_symbols := Cg.semEmpty, wast_symbols := [], label_counter := 0 }
      (.mk Span.synthetic
        (.Literal (.Boolean ⟨Span.synthetic, true⟩)) (.Empty ⟨Span.synthetic⟩)) =
      some { module := Wast.Module.default,
             scopes := [[Wast.Instruction.Loop 0 [Wast.Instruction.If
               (Wast.Instruction.I32Const 1) [Wast.Instruction.BrLoop 0] []]]],
             semantic_symbols := Cg.semEmpty, wast_symbols := [], label_counter := 1 } := by
    simp [Cg.visit_while_iteration_element, Cg.visit_single_expression,
      Cg.visit_literal, Cg.visit_statement_element, Cg.push_instruction_scope,
      Cg.push_instruction, Cg.pop_instruction_scope]
  have hc := visit_while_loop_shape
    { module := Wast.Module.default, scopes := [[]],
      semantic_symbols := Cg.semEmpty, wast_symbols := [], label_counter := 0 }
    Span.synthetic (.Literal (.Boolean ⟨Span.synthetic, true⟩))
    (.Empty ⟨Span.synthetic⟩) _ heval
    (by simp [Cg.scopesLabels, Wast.loopLabelsList])
  exact ⟨heval, hc⟩

/-- C9 counterexample: the unary `+` operator reaches `todo!()` in
`CodeGenerator::visit_unary_expression` (lines 445-456), modelled as `none`;
it does not return the operand unchanged. -/
theorem unary_plus_counterexample :
    Cg.visit_unary_expression (Cg.CodeGenerator.new Cg.semEmpty)
      (.mk Span.synthetic (.Plus Span.synthetic)
        (.Literal (.Integer ⟨Span.synthetic, 1⟩))) = none := by
  simp [Cg.visit_unary_expression, Cg.visit_single_expression, Cg.visit_literal]

/-- C9 (amended): once the operand visit succeeds, `-x` produces
`I32Sub(I32Const 0, x)` and `!x` produces `I32Xor(x, I32Const(-1))`, but `+x`
hits `todo!()` (`none`) instead of returning `x` unchanged. -/
theorem unary_codegen_behavior (s s1 : Cg.CodeGenerator) (sp : Span)
    (op : Cg.UnaryOperator) (e : Cg.SingleExpression) (x : Wast.Instruction)
    (h : Cg.visit_single_expression s e = some (s1, x)) :
    Cg.visit_unary_expression s (.mk sp op e) =
      match op with
      | .Minus _ => some (s1, .I32Sub (.I32Const 0) x)
      | .Not _ => some (s1, .I32Xor x (.I32Const (-1)))
      | .Plus _ => none := by
  cases op <;> simp only [Cg.visit_unary_expression, h]

/-- C9 witness: `-5` generates `I32Sub(I32Const 0, I32Const 5)`. -/
theorem unary_codegen_behavior_witness :
    Cg.visit_unary_expression (Cg.CodeGenerator.new Cg.semEmpty)
      (.mk Span.synthetic (.Minus Span.synthetic)
        (.Literal (.Integer ⟨Span.synthetic, 5⟩))) =
      some (Cg.CodeGenerator.new Cg.semEmpty,
        .I32Sub (.I32Const 0) (.I32Const 5)) := by
  have h : Cg.visit_single_expression (Cg.CodeGenerator.new Cg.semEmpty)
      (.Literal (.Integer ⟨Span.synthetic, 5⟩)) =
      some (Cg.CodeGenerator.new Cg.semEmpty, .I32Const 5) := by
    simp [Cg.visit_single_expression, Cg.visit_literal]
  exact unary_codegen_behavior _ _ _ _ _ _ h

/-- C4 counterexample: an `F32` subtraction reaches `todo!()` in
`CodeGenerator::visit_binary_expression` (lines 458-518), modelled as `none`;
no structured error value is produced (the function has no error channel). -/
theorem f32_minus_counterexample :
    Cg.visit_binary_expression (Cg.CodeGenerator.new Cg.semEmpty)
      (.mk Span.synthetic (.Literal (.Float ⟨Span.synthetic, 1⟩))
        (.Minus Span.synthetic) (.Literal (.Float ⟨Span.synthetic, 2⟩))
        (Ty.Primitive .F32)) = none := by
  simp [Cg.visit_binary_expression, Cg.visit_single_expression,
    Cg.visit_literal, Cg.definedType]

/-- C4 (amended): with both operand visits successful and the left operand
of declared type `F32`, only `+` generates `F32Add`; every other operator
hits `todo!()`, modelled as `none` (a panic, not a structured error). -/
theorem f32_binary_behavior (s s1 s2 : Cg.CodeGenerator) (sp : Span)
    (left right : Cg.SingleExpression) (op : BinaryOperator) (ty : Ty)
    (lhs rhs : Wast.Instruction)
    (hty : Cg.definedType left = Ty.Primitive .F32)
    (hl : Cg.visit_single_expression s left = some (s1, lhs))
    (hr : Cg.visit_single_expression s1 right = some (s2, rhs)) :
    Cg.visit_binary_expression s (.mk sp left op right ty) =
      match op with
      | .Plus _ => some (s2, .F32Add lhs rhs)
      | _ => none := by
  cases op <;> simp only [Cg.visit_binary_expression, hl, hr, hty]

/-- C4 witness: `1.0 + 2.0` generates `F32Add`. -/
theorem f32_binary_behavior_witness :
    Cg.visit_binary_expression (Cg.CodeGenerator.new Cg.semEmpty)
      (.mk Span.synthetic (.Literal (.Float ⟨Span.synthetic, 1⟩))
        (.Plus Span.synthetic) (.Literal (.Float ⟨Span.synthetic, 2⟩))
        (Ty.Primitive .F32)) =
      some (Cg.CodeGenerator.new Cg.semEmpty,
        .F32Add (.F32Const 1) (.F32Const 2)) := by
  have hl : Cg.visit_single_expression (Cg.CodeGenerator.new Cg.semEmpty)
      (.Literal (.Float ⟨Span.synthetic, 1⟩)) =
      some (Cg.CodeGenerator.new Cg.semEmpty, .F32Const 1) := by
    simp [Cg.visit_single_expression, Cg.visit_literal]
  have hr : Cg.visit_single_expression (Cg.CodeGenerator.new Cg.semEmpty)
      (.Literal (.Float ⟨Span.synthetic, 2⟩)) =
      some (Cg.CodeGenerator.new Cg.semEmpty, .F32Const 2) := by
    simp [Cg.visit_single_expression, Cg.visit_literal]
  exact f32_binary_behavior _ _ _ _ _ _ _ _ _ _ (by rfl) hl hr

/-- C10: `visit_assignable_element` succeeds exactly on fresh names: an
undefined target is defined as `Global` at wast depth 1 (returning the
`GlobalSet` placeholder) and `Local` at any other depth (returning
`LocalSet`); a name already defined on any scope reaches `unreachable!()`,
modelled as `none`. -/
theorem assignable_element_fresh_total (s : Cg.CodeGenerator) (ident : Ident) :
    (∀ ty, Cg.wastLookup s.wast_symbols ident.value = none →
      Cg.wastDepth s.wast_symbols = 1 →
      s.semantic_symbols.lookup ident.value = some ty →
      Cg.visit_assignable_element s (.Identifier ident) =
        some ({ s with
                  wast_symbols := Cg.wastDefine s.wast_symbols ident.value
                    (.Global (Cg.valueTypeOf ty)) },
          .GlobalSet ident.value .Noop)) ∧
    (∀ ty, Cg.wastLookup s.wast_symbols ident.value = none →
      Cg.wastDepth s.wast_symbols ≠ 1 →
      s.semantic_symbols.lookup ident.value = some ty →
      Cg.visit_assignable_element s (.Identifier ident) =
        some ({ s with
                  wast_symbols := Cg.wastDefine s.wast_symbols ident.value
                    (.Local (Cg.valueTypeOf ty)) },
          .LocalSet ident.value .Noop)) ∧
    ((Cg.wastLookup s.wast_symbols ident.value).isSome = true →
      Cg.visit_assignable_element s (.Identifier ident) = none) := by
  refine ⟨fun ty h1 h2 h3 => ?_, fun ty h1 h2 h3 => ?_, fun h1 => ?_⟩
  · simp [Cg.visit_assignable_element, h1, h2, h3]
  · simp [Cg.visit_assignable_element, h1, h2, h3]
  · have h2 : (Cg.wastLookup s.wast_symbols ident.value).isNone = false := by
      cases hx : Cg.wastLookup s.wast_symbols ident.value with
      | none => rw [hx] at h1; exact absurd h1 (by simp)
      | some v => rfl
    simp [Cg.visit_assignable_element, h2]

/-- C10 witness: a fresh `a` at depth 1 becomes a `Global` with a `GlobalSet`
placeholder; an `a` already defined in the wast table panics (`none`). -/
theorem assignable_element_fresh_total_witness :
    Cg.visit_assignable_element
      { module := Wast.Module.default, scopes := [],
        semantic_symbols :=
          { globalScope := ⟨[], none⟩, scopeOf := fun _ => ⟨[], none⟩,
            stack := [⟨[("a", Ty.Primitive .I32)], none⟩] },
        wast_symbols := [[]], label_counter := 0 }
      (.Identifier ⟨Span.synthetic, "a"⟩) =
      some ({ module := Wast.Module.default, scopes := [],
              semantic_symbols :=
                { globalScope := ⟨[], none⟩, scopeOf := fun _ => ⟨[], none⟩,
                  stack := [⟨[("a", Ty.Primitive .I32)], none⟩] },
              wast_symbols := [[("a", Cg.WastSymbol.Global .I32)]],
              label_counter := 0 },
        .GlobalSet "a" .Noop) ∧
    Cg.visit_assignable_element
      { module := Wast.Module.default, scopes := [],
        semantic_symbols := Cg.semEmpty,
        wast_symbols := [[("a", Cg.WastSymbol.Local .I32)]], label_counter := 0 }
      (.Identifier ⟨Span.synthetic, "a"⟩) = none := by
  constructor
  · exact (assignable_element_fresh_total _ _).1 (Ty.Primitive .I32)
      (by rfl) (by rfl) (by rfl)
  · exact (assignable_element_fresh_total _ _).2.2 (by rfl)

/-- C6: block wrapping and the synthetic return. -/
theorem function_body_block_wrapping
    (s : Cg.CodeGenerator) (span : Span) (dec : Cg.FunctionDecorators)
    (idt : Ident) (params : Cg.FormalParameterList) (rets : Option Cg.TypeAnnot)
    (body : Cg.FunctionBody) (s' : Cg.CodeGenerator)
    (hann : ∀ a ∈ dec.annots, a.name.value ≠ "wast" ∧ a.name.value ≠ "native")
    (h : Cg.visit_function_declaration s
      (.mk span dec idt params rets body) = some s') :
    ∃ typeIdx bodyInstrs localsPart,
      (∀ x ∈ localsPart, ∃ nm t, x = Wast.Instruction.Local nm t) ∧
      s'.module.functions.getLast? = some ⟨idt.value, typeIdx,
        localsPart ++ (Wast.Instruction.Block 0 bodyInstrs ::
          (match (s.semantic_symbols.get_scope span).returns with
           | some _ => [Wast.Instruction.SynthReturn]
           | none => []))⟩ ∧
      (∀ rt, (s.semantic_symbols.get_scope span).returns = some rt →
        Wast.Instruction.Local "return" (Cg.valueTypeOf rt) ∈ localsPart) := by
  simp only [Cg.visit_function_declaration] at h
  try dsimp only [] at h
  split at h
  · exact Option.noConfusion h
  rename_i s3 tps hdp
  try dsimp only [] at h
  rw [Cg.process_annots_no_annots _ _ _ _ _ _ hann] at h
  try dsimp only [] at h
  split at h
  · exact Option.noConfusion h
  rename_i s5 instrs1 hgen
  try dsimp only [] at h
  split at h
  · exact Option.noConfusion h
  rename_i w hpopw
  split at h
  · exact Option.noConfusion h
  rename_i sem hpops
  obtain rfl := Option.some.inj h
  have hpre3 := Cg.define_params_pres _ _ _ _ _ hdp
  have he3 : s3.semantic_symbols = s.semantic_symbols.push_scope span := hpre3.2.2.2.1
  have hw3 : s3.wast_symbols.length = s.wast_symbols.length + 1 := by
    have hx := hpre3.2.2.2.2.1
    simpa [Cg.wastPushScope] using hx
  have hscope : s3.semantic_symbols.get_scope span = s.semantic_symbols.get_scope span := by
    rw [he3]; rfl
  rw [hscope] at hgen ⊢
  simp only [Cg.gen_function_instructions] at hgen
  split at hgen
  · exact Option.noConfusion hgen
  rename_i s4 hbody
  try dsimp only [] at hgen
  split at hgen
  · exact Option.noConfusion hgen
  rename_i scopeInstrs s4p hpop
  try dsimp only [] at hgen
  have hpopf := Cg.pop_instruction_scope_fields hpop
  have hb := Cg.visit_src_pres.2.2.2.2.2 _ _ _ hbody
  have hlen4 : s4p.wast_symbols.length = s.wast_symbols.length + 1 := by
    rw [hpopf.2.2.1, hb.2.1]
    exact hw3
  split at hgen
  · rename_i rt hrt
    simp only [Option.some.injEq, Prod.mk.injEq] at hgen
    obtain ⟨rfl, rfl⟩ := hgen
    obtain ⟨rty, hret, hval⟩ := Option.map_eq_some'.mp hrt
    have hmem : ("return", Cg.WastSymbol.Local rt) ∈
        Cg.symbolsInCurrentScope (Cg.wastDefine s4p.wast_symbols "return"
          (Cg.WastSymbol.Local rt)) := by
      cases hW : s4p.wast_symbols with
      | nil => rw [hW] at hlen4; simp at hlen4
      | cons sc rest => simp [Cg.wastDefine, Cg.symbolsInCurrentScope]
    obtain ⟨L, hL, hall⟩ := Cg.insert_locals_shape
      (Cg.symbolsInCurrentScope (Cg.wastDefine s4p.wast_symbols "return"
        (Cg.WastSymbol.Local rt)))
      [Wast.Instruction.Block 0 scopeInstrs, Wast.Instruction.SynthReturn]
    have hinL : Wast.Instruction.Local "return" rt ∈ L := by
      have hx := Cg.insert_locals_mem _
        [Wast.Instruction.Block 0 scopeInstrs, Wast.Instruction.SynthReturn] _ _ hmem
      rw [hL] at hx
      rcases List.mem_append.mp hx with hx | hx
      · exact hx
      · simp at hx
    refine ⟨(s3.module.push_type
        { params := tps,
          ret := Option.map Cg.valueTypeOf (s.semantic_symbols.get_scope span).returns }).2,
      scopeInstrs, L, hall, ?_, ?_⟩
    · dsimp only []
      rw [Cg.commit_function_functions]
      simp only [hret]
      rw [hL, List.getLast?_concat]
    · intro rt2 hrt2
      rw [hret] at hrt2
      obtain rfl := Option.some.inj hrt2
      rw [← hval] at hinL
      exact hinL
  · rename_i hrt
    simp only [Option.some.injEq, Prod.mk.injEq] at hgen
    obtain ⟨rfl, rfl⟩ := hgen
    have hret : (s.semantic_symbols.get_scope span).returns = none :=
      Option.map_eq_none'.mp hrt
    obtain ⟨L, hL, hall⟩ := Cg.insert_locals_shape
      (Cg.symbolsInCurrentScope s4p.wast_symbols) [Wast.Instruction.Block 0 scopeInstrs]
    refine ⟨(s3.module.push_type
        { params := tps,
          ret := Option.map Cg.valueTypeOf (s.semantic_symbols.get_scope span).returns }).2,
      scopeInstrs, L, hall, ?_, ?_⟩
    · dsimp only []
      rw [Cg.commit_function_functions]
      simp only [hret]
      rw [hL, List.getLast?_concat]
    · intro rt2 hrt2
      rw [hret] at hrt2
      exact Option.noConfusion hrt2

/-- C6 witness: `function test() {}` yields exactly `Block(0, [])` and no
synthetic return. -/
theorem function_body_block_wrapping_witness :
    Cg.visit_function_declaration (Cg.CodeGenerator.new Cg.semEmpty)
      (.mk Span.synthetic ⟨[], false⟩ ⟨Span.synthetic, "test"⟩ ⟨[]⟩ none
        (.mk Span.synthetic (.mk []))) =
      some { module := { imports := [], types := [⟨[], none⟩],
                         functions := [⟨"test", 0, [Wast.Instruction.Block 0 []]⟩],
                         globals := [], exports := [] },
             scopes := [], semantic_symbols := Cg.semEmpty,
             wast_symbols := [], label_counter := 0 } ∧
    (∃ typeIdx bodyInstrs localsPart,
      (∀ x ∈ localsPart, ∃ nm t, x = Wast.Instruction.Local nm t) ∧
      ({ module := { imports := [], types := [⟨[], none⟩],
                     functions := [⟨"test", 0, [Wast.Instruction.Block 0 []]⟩],
                     globals := [], exports := [] },
         scopes := [], semantic_symbols := Cg.semEmpty,
         wast_symbols := [],
         label_counter := 0 } : Cg.CodeGenerator).module.functions.getLast? =
        some ⟨"test", typeIdx, localsPart ++ [Wast.Instruction.Block 0 bodyInstrs]⟩ ∧
      (∀ rt, ((Cg.CodeGenerator.new Cg.semEmpty).semantic_symbols.get_scope
          Span.synthetic).returns = some rt →
        Wast.Instruction.Local "return" (Cg.valueTypeOf rt) ∈ localsPart)) := by
  have heval : Cg.visit_function_declaration (Cg.CodeGenerator.new Cg.semEmpty)
      (.mk Span.synthetic ⟨[], false⟩ ⟨Span.synthetic, "test"⟩ ⟨[]⟩ none
        (.mk Span.synthetic (.mk []))) =
      some { module := { imports := [], types := [⟨[], none⟩],
                         functions := [⟨"test", 0, [Wast.Instruction.Block 0 []]⟩],
                         globals := [], exports := [] },
             scopes := [], semantic_symbols := Cg.semEmpty,
             wast_symbols := [], label_counter := 0 } := by
    simp [Cg.visit_function_declaration, Cg.define_params, Cg.process_annots,
      Cg.gen_function_instructions, Cg.visit_function_body, Cg.visit_source_elements,
      Cg.visit_source_element_list, Cg.push_instruction_scope, Cg.pop_instruction_scope,
      Cg.insert_locals, Cg.symbolsInCurrentScope, Cg.commit_function,
      Cg.wastPushScope, Cg.wastPopScope, Cg.SemanticSymbolTable.push_scope,
      Cg.SemanticSymbolTable.pop_scope, Cg.SemanticSymbolTable.get_scope,
      Cg.semEmpty, Cg.CodeGenerator.new, Wast.Module.default, Wast.Module.push_type,
      Wast.findTypeIdx, Wast.Module.push_function, Cg.valueTypeOf]
  exact ⟨heval, function_body_block_wrapping _ _ _ _ _ _ _ _ (by simp) heval⟩

end Jswt
